import Mathlib

/-!
Verification development for the trace-based GRUB/EDF/DVFS conformance checker
(`tests/verify_grub.py`).  Python floats are modelled by `ℚ` (the checker only
adds, multiplies and divides trace data, so the control flow is
float-independent); dictionaries keyed by integers are modelled by functions
`ℕ → Option _` when they are only read pointwise, and by lists when the source
iterates over their values (Python dictionaries iterate in insertion order and
hold at most one entry per key).  Violation messages are abstracted to the list
of numeric values interpolated into them, in interpolation order.
-/

namespace VerifyGrub

set_option maxRecDepth 8000

/-- Numerical tolerance `ABS_TOL = 1e-4` from the source. -/
def ABS_TOL : ℚ := 1/10000

/-- Numerical tolerance `REL_TOL = 1e-4` from the source. -/
def REL_TOL : ℚ := 1/10000

/-- Tolerance `VT_DEADLINE_TOL = 1e-4` for the vt <= deadline check. -/
def VT_DEADLINE_TOL : ℚ := 1/10000

/-- The `1e-9` threshold used by `_has_future_job` and the vt-rate check. -/
def EPS9 : ℚ := 1/1000000000

/-- Python `abs` on rationals (kernel-computable; equal to `|·|`). -/
def absQ (a : ℚ) : ℚ := if a < 0 then -a else a

/-- `approx_eq`: combined relative+absolute tolerance comparison.  Mirrors the
source: absolute test first, then an explicit `denom == 0` guard, then the
relative test. -/
def approx_eq (a b : ℚ) : Bool :=
  if absQ (a - b) ≤ ABS_TOL then true
  else if max (absQ a) (absQ b) = 0 then true
  else decide (absQ (a - b) / max (absQ a) (absQ b) ≤ REL_TOL)

/-- Insert into an ascending-sorted list (used to model Python `sorted`). -/
def insertAscQ (x : ℚ) : List ℚ → List ℚ
  | [] => [x]
  | y :: ys => if x ≤ y then x :: y :: ys else y :: insertAscQ x ys

/-- Ascending insertion sort, modelling Python `sorted(...)` on numbers. -/
def sortQ (l : List ℚ) : List ℚ := l.foldr insertAscQ []

/-- Insert into a descending-sorted list. -/
def insertDescQ (x : ℚ) : List ℚ → List ℚ
  | [] => [x]
  | y :: ys => if y < x then x :: y :: ys else y :: insertDescQ x ys

/-- Descending insertion sort, modelling `sorted(..., reverse=True)`. -/
def sortDescQ (l : List ℚ) : List ℚ := l.foldr insertDescQ []

/-- Python `max` over a list of rationals.  The source only calls it on
nonempty lists (`max()` on an empty list raises); the `[]` value is arbitrary. -/
def maxQ : List ℚ → ℚ
  | [] => 0
  | x :: xs => xs.foldl max x

/-- `ClusterInfo`: one cluster of the platform.  `frequencies` is sorted
descending by construction (`__post_init__`), `freq_max` is its head, and
`scale_speed` is set by `load_platform` after construction. -/
structure ClusterInfo where
  cluster_id : ℕ
  num_procs : ℕ
  frequencies : List ℚ
  effective_freq : ℚ
  perf_score : ℚ
  scale_speed : ℚ
  freq_max : ℚ
deriving DecidableEq

/-- Build a `ClusterInfo` the way `load_platform` + `__post_init__` do: sort
the frequency list descending and take its head as `freq_max` (the source
indexes `frequencies[0]`, so the list is nonempty in every actual platform;
`headD 0` stands in for the out-of-range crash on an empty list). -/
def mkClusterInfo (id procs : ℕ) (freqs : List ℚ) (eff perf scale : ℚ) : ClusterInfo :=
  let fs := sortDescQ freqs
  { cluster_id := id, num_procs := procs, frequencies := fs,
    effective_freq := eff, perf_score := perf, scale_speed := scale,
    freq_max := fs.headD 0 }

/-- Tail-recursive core of `ceil_to_mode`: walk the descending list holding the
previously inspected element; on the first element `< freq` return the
previous one, and past the end return the last element (`frequencies[-1]`). -/
def ctmGo (f prev : ℚ) : List ℚ → ℚ
  | [] => prev
  | x :: xs => if x < f then prev else ctmGo f x xs

/-- `ceil_to_mode` on a raw descending frequency list: the first element `< f`
yields its predecessor (or the head when it is the very first element), and if
no element is `< f` the last (smallest) element is returned.  The empty list
cannot occur after platform load (the source would have crashed earlier). -/
def ctm (l : List ℚ) (f : ℚ) : ℚ :=
  match l with
  | [] => 0
  | x :: xs => if x < f then x else ctmGo f x xs

/-- `ClusterInfo.ceil_to_mode`: round a continuous frequency target up to the
next available mode. -/
def ceil_to_mode (c : ClusterInfo) (f : ℚ) : ℚ := ctm c.frequencies f

/-- `TaskInfo`: one declared task of the scenario. -/
structure TaskInfo where
  tid : ℕ
  utilization : ℚ
  period : ℚ
  job_arrivals : List ℚ
deriving DecidableEq

/-- Server lifecycle state (the `state` string of `ServerTracker`). -/
inductive SState
  | inactive
  | ready
  | running
  | non_cont
deriving DecidableEq

/-- `ServerTracker`: per-server tracked state, one per task id. -/
structure ServerTracker where
  tid : ℕ
  utilization : ℚ
  period : ℚ
  deadline : ℚ := 0
  virtual_time : ℚ := 0
  state : SState := .inactive
  in_scheduler : Bool := false
  cluster_id : ℕ := 0
  prev_vt_update_time : Option ℚ := none
  prev_vt_update_value : Option ℚ := none
  cur_vt_update_time : Option ℚ := none
  cur_vt_update_value : Option ℚ := none
  ran_continuously : Bool := false
  bandwidth_may_have_changed : Bool := false
deriving DecidableEq

/-- A recorded invariant violation.  `msgVals` abstracts the formatted message
to the numeric values interpolated into it, in order. -/
structure Violation where
  invariant : String
  time : ℚ
  tid : Option ℕ
  msgVals : List ℚ
deriving DecidableEq

/-- The tagged event kinds decoded from one trace entry. -/
inductive EKind
  | job_arrival (tid : ℕ)
  | job_finished (tid : ℕ)
  | task_placed (tid : ℕ) (cluster_id : ℕ)
  | task_scheduled (tid : ℕ) (cpu : ℕ)
  | task_preempted (tid : ℕ)
  | task_rejected
  | serv_ready (tid : ℕ) (deadline : ℚ) (utilization : ℚ)
  | serv_running (tid : ℕ)
  | serv_non_cont (tid : ℕ)
  | serv_inactive (tid : ℕ)
  | serv_postpone (tid : ℕ) (deadline : ℚ)
  | serv_budget_replenished (tid : ℕ) (budget : ℚ)
  | serv_budget_exhausted (tid : ℕ)
  | virtual_time_update (tid : ℕ) (virtual_time : ℚ)
  | frequency_update (cluster_id : ℕ) (frequency : ℚ)
  | proc_activated
  | proc_idled (cpu : ℕ)
  | proc_sleep
  | proc_change
  | resched
  | sim_finished
  | migration_cluster (tid : ℕ) (cluster_id : ℕ)
deriving DecidableEq

/-- One trace entry: a timestamp plus a tagged event. -/
structure Event where
  time : ℚ
  kind : EKind
deriving DecidableEq

/-- The mutable state of `StateTracker`, minus the violation list (handlers
never touch the violation list and checkers never touch the rest, so the two
are carried separately; `verify_trace` recombines them).  Maps read only
pointwise are functions; `servers` is a list in insertion order with at most
one entry per tid (a Python dict); `cpu_to_tid` is an insertion-ordered
association list because `_on_task_preempted` clears the first matching
entry. -/
structure Core where
  clusters : ℕ → Option ClusterInfo
  task_info : ℕ → Option TaskInfo
  servers : List ServerTracker
  cpu_to_tid : List (ℕ × Option ℕ)
  cluster_freq : ℕ → Option ℚ
  tid_to_cluster : ℕ → Option ℕ
  future_jobs : ℕ → List ℚ
  max_ever_scheduler_util : ℕ → ℚ

/-- Dictionary lookup `self.servers.get(tid)` / `tid in self.servers`. -/
def findSrv (s : Core) (tid : ℕ) : Option ServerTracker :=
  s.servers.find? (fun sv => sv.tid == tid)

/-- In-place mutation of the server record for `tid` (a no-op when absent,
matching the `if tid in self.servers` guards; tids are unique in `servers`). -/
def updateSrv (s : Core) (tid : ℕ) (f : ServerTracker → ServerTracker) : Core :=
  { s with servers := s.servers.map (fun sv => if sv.tid == tid then f sv else sv) }

/-- `_get_cluster`: the cluster a tid is assigned to, if any. -/
def get_cluster (s : Core) (tid : ℕ) : Option ClusterInfo :=
  match s.tid_to_cluster tid with
  | some cid => s.clusters cid
  | none => none

/-- `_servers_in_cluster`: attached (`in_scheduler`) servers of a cluster. -/
def servers_in_cluster (s : Core) (cid : ℕ) : List ServerTracker :=
  s.servers.filter (fun sv => sv.in_scheduler && s.tid_to_cluster sv.tid == some cid)

/-- `_active_servers_in_cluster`: servers of a cluster in ready/running state. -/
def active_servers_in_cluster (s : Core) (cid : ℕ) : List ServerTracker :=
  s.servers.filter (fun sv =>
    (sv.state == SState.ready || sv.state == SState.running)
      && s.tid_to_cluster sv.tid == some cid)

/-- `_all_servers_in_cluster`: every tracked server of a cluster. -/
def all_servers_in_cluster (s : Core) (cid : ℕ) : List ServerTracker :=
  s.servers.filter (fun sv => s.tid_to_cluster sv.tid == some cid)

/-- Scaled utilization of one server record w.r.t. a cluster
(`utilization * scale_speed / perf_score`). -/
def scaledOf (c : ClusterInfo) (sv : ServerTracker) : ℚ :=
  sv.utilization * c.scale_speed / c.perf_score

/-- `_compute_bandwidth`: the GRUB bandwidth formula over the attached server
set of a cluster.  A cluster id missing from the platform map raises
`KeyError` in the source; every claim keeps the cluster known, and the `none`
value here is arbitrary. -/
def compute_bandwidth (s : Core) (cid : ℕ) : ℚ :=
  match s.clusters cid with
  | none => 1
  | some cluster =>
    let m : ℚ := cluster.num_procs
    let srvs := servers_in_cluster s cid
    if srvs.isEmpty then 1
    else
      let scaled_utils := srvs.map (scaledOf cluster)
      let total_u := scaled_utils.sum
      let u_max := maxQ scaled_utils
      let inactive_bw := m - (m - 1) * u_max - total_u
      1 - inactive_bw / m

/-- `_scaled_util`: scaled utilization of a tracked server (falls back to the
raw utilization when the cluster is unknown).  The source indexes
`self.servers[tid]`; every call site has already checked presence, so the
`none` value is arbitrary. -/
def scaled_util (s : Core) (tid : ℕ) : ℚ :=
  match findSrv s tid with
  | none => 0
  | some sv =>
    match get_cluster s tid with
    | none => sv.utilization
    | some c => sv.utilization * c.scale_speed / c.perf_score

/-- `_has_future_job`: is there a declared arrival strictly after
`after_time + 1e-9`? -/
def has_future_job (s : Core) (tid : ℕ) (after_time : ℚ) : Bool :=
  (s.future_jobs tid).any (fun a => decide (a > after_time + EPS9))

/-- `_mark_bandwidth_changed`: set the stale-bandwidth flag on every server of
a cluster. -/
def mark_bandwidth_changed (s : Core) (cid : ℕ) : Core :=
  { s with servers := s.servers.map (fun sv =>
      if s.tid_to_cluster sv.tid == some cid
      then { sv with bandwidth_may_have_changed := true } else sv) }

/-- Write a key of the cpu occupancy map (update in place, insert at the end
when absent — Python dict assignment). -/
def setCpu (l : List (ℕ × Option ℕ)) (cpu : ℕ) (v : Option ℕ) : List (ℕ × Option ℕ) :=
  if l.any (fun p => p.1 == cpu) then l.map (fun p => if p.1 == cpu then (p.1, v) else p)
  else l ++ [(cpu, v)]

/-- Clear the first cpu entry currently mapped to `tid` (the `break` in
`_on_task_preempted`). -/
def clearFirstCpu (tid : ℕ) : List (ℕ × Option ℕ) → List (ℕ × Option ℕ)
  | [] => []
  | p :: rest =>
    if p.2 == some tid then (p.1, none) :: rest else p :: clearFirstCpu tid rest

/-- `_on_job_arrival`: create the tracker lazily from the scenario; never
touch the deadline. -/
def on_job_arrival (s : Core) (tid : ℕ) : Core :=
  match findSrv s tid with
  | some _ => s
  | none =>
    match s.task_info tid with
    | none => s
    | some t =>
      { s with servers := s.servers ++
          [{ tid := tid, utilization := t.utilization, period := t.period }] }

/-- `_on_task_placed` / `_on_migration_cluster`: record the cluster
assignment. -/
def on_task_placed (s : Core) (tid cid : ℕ) : Core :=
  { s with tid_to_cluster := fun u => if u = tid then some cid else s.tid_to_cluster u }

/-- First block of `_on_serv_ready`: create the tracker if missing (event
utilization, scenario period or 0). -/
def readyEnsure (s : Core) (tid : ℕ) (utilization : ℚ) : Core :=
  match findSrv s tid with
  | some _ => s
  | none =>
    let period := match s.task_info tid with
      | some t => t.period
      | none => 0
    { s with servers := s.servers ++
        [{ tid := tid, utilization := utilization, period := period }] }

/-- Watermark block of `_on_serv_ready`: raise `max_ever_scheduler_util` of
the server's cluster by the event utilization, scaled. -/
def readyWatermark (s : Core) (tid : ℕ) (utilization : ℚ) : Core :=
  match s.tid_to_cluster tid with
  | none => s
  | some cid =>
    match s.clusters cid with
    | none => s
    | some cluster =>
      let scaled_u := utilization * cluster.scale_speed / cluster.perf_score
      { s with max_ever_scheduler_util := fun c =>
          if c = cid then max (s.max_ever_scheduler_util cid) scaled_u
          else s.max_ever_scheduler_util c }

/-- Attach block of `_on_serv_ready` (prior state was Inactive): reset the
virtual time and the VT history, clear the two flags, then mark the whole
cluster's bandwidth as stale. -/
def readyAttach (s : Core) (time : ℚ) (tid : ℕ) : Core :=
  let s3 := updateSrv s tid (fun sv =>
    { sv with virtual_time := time,
              prev_vt_update_time := none, prev_vt_update_value := none,
              cur_vt_update_time := none, cur_vt_update_value := none,
              ran_continuously := false, bandwidth_may_have_changed := false })
  match s3.tid_to_cluster tid with
  | none => s3
  | some cid => mark_bandwidth_changed s3 cid

/-- `_on_serv_ready`: set state Ready, deadline and attachment, raise the
watermark, and run the attach block when the prior state was Inactive. -/
def on_serv_ready (s : Core) (time : ℚ) (tid : ℕ) (deadline utilization : ℚ) : Core :=
  let s0 := readyEnsure s tid utilization
  let old_state := match findSrv s0 tid with
    | some sv => sv.state
    | none => SState.inactive
  let s1 := updateSrv s0 tid (fun sv =>
    { sv with state := SState.ready, deadline := deadline, in_scheduler := true })
  let s2 := readyWatermark s1 tid utilization
  if old_state = SState.inactive then readyAttach s2 time tid else s2

/-- `_on_serv_inactive`: state Inactive; detach (and mark the cluster) when no
future job remains. -/
def on_serv_inactive (s : Core) (time : ℚ) (tid : ℕ) : Core :=
  match findSrv s tid with
  | none => s
  | some _ =>
    let s1 := updateSrv s tid (fun sv =>
      { sv with state := SState.inactive, ran_continuously := false })
    if has_future_job s1 tid time then s1
    else
      let s2 := updateSrv s1 tid (fun sv => { sv with in_scheduler := false })
      match s2.tid_to_cluster tid with
      | none => s2
      | some cid => mark_bandwidth_changed s2 cid

/-- `_on_task_preempted`: clear the first cpu entry for the tid and revert the
server to Ready. -/
def on_task_preempted (s : Core) (tid : ℕ) : Core :=
  let s1 := { s with cpu_to_tid := clearFirstCpu tid s.cpu_to_tid }
  updateSrv s1 tid (fun sv => { sv with state := SState.ready, ran_continuously := false })

/-- `_on_virtual_time_update`: shift the two-slot VT history and set the
virtual time; the two flags are reset later by `post_virtual_time_update`. -/
def on_virtual_time_update (s : Core) (time vt : ℚ) (tid : ℕ) : Core :=
  updateSrv s tid (fun sv =>
    { sv with prev_vt_update_time := sv.cur_vt_update_time,
              prev_vt_update_value := sv.cur_vt_update_value,
              cur_vt_update_time := some time,
              cur_vt_update_value := some vt,
              virtual_time := vt })

/-- `post_virtual_time_update`: after the VT rate check, restart the
continuous-running interval and clear the stale-bandwidth flag. -/
def post_virtual_time_update (s : Core) (tid : ℕ) : Core :=
  updateSrv s tid (fun sv =>
    { sv with ran_continuously := true, bandwidth_may_have_changed := false })

/-- `process_event`: the per-kind state mutation (never records violations). -/
def processEvent (s : Core) (e : Event) : Core :=
  match e.kind with
  | .job_arrival tid => on_job_arrival s tid
  | .job_finished _ => s
  | .task_placed tid cid => on_task_placed s tid cid
  | .task_scheduled tid cpu => { s with cpu_to_tid := setCpu s.cpu_to_tid cpu (some tid) }
  | .task_preempted tid => on_task_preempted s tid
  | .task_rejected => s
  | .serv_ready tid d u => on_serv_ready s e.time tid d u
  | .serv_running tid =>
      updateSrv s tid (fun sv => { sv with ran_continuously := false, state := SState.running })
  | .serv_non_cont tid =>
      updateSrv s tid (fun sv => { sv with state := SState.non_cont, ran_continuously := false })
  | .serv_inactive tid => on_serv_inactive s e.time tid
  | .serv_postpone tid d => updateSrv s tid (fun sv => { sv with deadline := d })
  | .serv_budget_replenished _ _ => s
  | .serv_budget_exhausted _ => s
  | .virtual_time_update tid vt => on_virtual_time_update s e.time vt tid
  | .frequency_update cid f =>
      { s with cluster_freq := fun c => if c = cid then some f else s.cluster_freq c }
  | .proc_activated => s
  | .proc_idled cpu => { s with cpu_to_tid := setCpu s.cpu_to_tid cpu none }
  | .proc_sleep => s
  | .proc_change => s
  | .resched => s
  | .sim_finished => s
  | .migration_cluster tid cid => on_task_placed s tid cid

/-- Invariant 1 (`check_no_deadline_miss`): at `job_finished`,
`t <= deadline + tol`. -/
def check_no_deadline_miss (s : Core) (time : ℚ) (tid : ℕ) : List Violation :=
  match findSrv s tid with
  | none => []
  | some sv =>
    if time > sv.deadline + ABS_TOL then
      [⟨"no_deadline_miss", time, some tid, [time, sv.deadline, time - sv.deadline]⟩]
    else []

/-- Invariant 2 (`check_vt_le_deadline`): at `virtual_time_update`,
`vt <= deadline + tol`. -/
def check_vt_le_deadline (s : Core) (time : ℚ) (tid : ℕ) (vt : ℚ) : List Violation :=
  match findSrv s tid with
  | none => []
  | some sv =>
    if vt > sv.deadline + VT_DEADLINE_TOL then
      [⟨"vt_le_deadline", time, some tid, [vt, sv.deadline, vt - sv.deadline]⟩]
    else []

/-- Invariant 3 (`check_edf_ordering`): at `task_scheduled`, the scheduled
server's deadline must not exceed any attached Ready server's deadline in the
same cluster.  The loop body, including its (dead) inner tie-breaking test, is
translated verbatim. -/
def check_edf_ordering (s : Core) (time : ℚ) (tid : ℕ) : List Violation :=
  match findSrv s tid with
  | none => []
  | some sv =>
    match s.tid_to_cluster tid with
    | none => []
    | some cid =>
      s.servers.filterMap (fun other =>
        if other.tid == tid then none
        else if !(s.tid_to_cluster other.tid == some cid) then none
        else if !(other.state == SState.ready) then none
        else if !other.in_scheduler then none
        else if other.deadline < sv.deadline - ABS_TOL then
          if absQ (other.deadline - sv.deadline) ≤ ABS_TOL then none
          else some ⟨"edf_ordering", time, some tid,
            [(tid : ℚ), sv.deadline, (other.tid : ℚ), other.deadline]⟩
        else none)

/-- Invariant 4 (`check_budget_formula`): at `serv_budget_replenished`,
`budget = (scaled_U / bandwidth) * (deadline - vt)`, clamped at 0. -/
def check_budget_formula (s : Core) (time : ℚ) (tid : ℕ) (budget : ℚ) : List Violation :=
  match findSrv s tid with
  | none => []
  | some sv =>
    match s.tid_to_cluster tid with
    | none => []
    | some cid =>
      let bandwidth := compute_bandwidth s cid
      if bandwidth ≤ 0 then []
      else
        let scaled_u := scaled_util s tid
        let expected0 := scaled_u / bandwidth * (sv.deadline - sv.virtual_time)
        let expected := if expected0 < 0 then 0 else expected0
        if approx_eq budget expected then []
        else [⟨"budget_formula", time, some tid,
          [budget, expected, sv.deadline, sv.virtual_time, scaled_u, bandwidth]⟩]

/-- Invariant 5 (`check_vt_rate`): between consecutive VT updates of a server
that ran continuously with stable bandwidth,
`delta_vt = (bandwidth / scaled_U) * delta_wall`.  Runs before
`_on_virtual_time_update`, so `cur_vt_update_*` still holds the previous
update. -/
def check_vt_rate (s : Core) (time : ℚ) (tid : ℕ) (vt : ℚ) : List Violation :=
  match findSrv s tid with
  | none => []
  | some sv =>
    match s.tid_to_cluster tid with
    | none => []
    | some cid =>
      if !sv.ran_continuously then []
      else
        match sv.cur_vt_update_time with
        | none => []
        | some prev_time =>
          if sv.bandwidth_may_have_changed then []
          else
            let prev_vt := sv.cur_vt_update_value.getD 0
            let delta_wall := time - prev_time
            let delta_vt := vt - prev_vt
            if delta_wall ≤ EPS9 then []
            else
              let bandwidth := compute_bandwidth s cid
              if bandwidth ≤ 0 then []
              else
                let scaled_u := scaled_util s tid
                if scaled_u ≤ 0 then []
                else
                  let expected_delta_vt := bandwidth / scaled_u * delta_wall
                  if approx_eq delta_vt expected_delta_vt then []
                  else [⟨"vt_rate", time, some tid,
                    [delta_vt, expected_delta_vt, delta_wall, bandwidth, scaled_u]⟩]

/-- Invariant 6 (`check_frequency`, PA only): power-aware frequency formula
over the attached server set, with the never-decremented watermark as
`u_max`.  The watermark dictionary holds a key for every platform cluster, so
its `.get` default (`max(scaled_utils)`) is unreachable once the cluster
lookup has succeeded; the watermark function here is total with the same
values. -/
def check_frequency (s : Core) (time : ℚ) (cid : ℕ) (freq : ℚ) (sched : String) :
    List Violation :=
  if sched ≠ "pa" then []
  else
    match s.clusters cid with
    | none => []
    | some cluster =>
      let m := cluster.num_procs
      let f_max := cluster.freq_max
      let srvs := servers_in_cluster s cid
      if srvs.isEmpty then []
      else
        let scaled_utils := srvs.map (scaledOf cluster)
        let total_u := scaled_utils.sum
        let u_max_val := s.max_ever_scheduler_util cid
        let raw_freq := f_max * (((m : ℚ) - 1) * u_max_val + total_u) / (m : ℚ)
        let expected_freq := ceil_to_mode cluster (min raw_freq f_max)
        if approx_eq freq expected_freq then []
        else [⟨"frequency_formula", time, none,
          [freq, expected_freq, raw_freq, total_u, u_max_val, (m : ℚ)]⟩]

/-- Invariant 7 (`check_ffa_frequency`, FFA only): frequency from the active
utilization and the maximum over all tracked servers, with the
effective-frequency floor. -/
def check_ffa_frequency (s : Core) (time : ℚ) (cid : ℕ) (freq : ℚ) (sched : String) :
    List Violation :=
  if sched ≠ "ffa" then []
  else
    match s.clusters cid with
    | none => []
    | some cluster =>
      let m := cluster.num_procs
      let f_max := cluster.freq_max
      let f_eff := cluster.effective_freq
      let active_srvs := active_servers_in_cluster s cid
      if active_srvs.isEmpty then []
      else
        let active_util := (active_srvs.map (scaledOf cluster)).sum
        let all_srvs := all_servers_in_cluster s cid
        if all_srvs.isEmpty then []
        else
          let max_util := maxQ (all_srvs.map (scaledOf cluster))
          let raw_freq := f_max * (active_util + ((m : ℚ) - 1) * max_util) / (m : ℚ)
          let fmin := min raw_freq f_max
          let expected_freq :=
            if f_eff > 0 ∧ fmin < f_eff then ceil_to_mode cluster f_eff
            else ceil_to_mode cluster fmin
          if approx_eq freq expected_freq then []
          else [⟨"ffa_frequency", time, none,
            [freq, expected_freq, raw_freq, active_util, max_util, (m : ℚ), f_eff]⟩]

/-- Invariant 8 (`check_csf_frequency`, CSF only): like FFA but with the
reduced active core count `m_min`. -/
def check_csf_frequency (s : Core) (time : ℚ) (cid : ℕ) (freq : ℚ) (sched : String) :
    List Violation :=
  if sched ≠ "csf" then []
  else
    match s.clusters cid with
    | none => []
    | some cluster =>
      let m := cluster.num_procs
      let f_max := cluster.freq_max
      let f_eff := cluster.effective_freq
      let active_srvs := active_servers_in_cluster s cid
      if active_srvs.isEmpty then []
      else
        let active_util := (active_srvs.map (scaledOf cluster)).sum
        let all_srvs := all_servers_in_cluster s cid
        if all_srvs.isEmpty then []
        else
          let max_util := maxQ (all_srvs.map (scaledOf cluster))
          let m_min : ℤ :=
            if max_util ≥ 1 then (m : ℤ)
            else
              let needed := (active_util - max_util) / (1 - max_util)
              max 1 (min (Rat.ceil needed) (m : ℤ))
          let raw_freq := f_max * (active_util + ((m_min : ℚ) - 1) * max_util) / (m_min : ℚ)
          let fmin := min raw_freq f_max
          let expected_freq :=
            if f_eff > 0 ∧ fmin < f_eff then ceil_to_mode cluster f_eff
            else ceil_to_mode cluster fmin
          if approx_eq freq expected_freq then []
          else [⟨"csf_frequency", time, none,
            [freq, expected_freq, raw_freq, active_util, max_util,
             (m_min : ℚ), (m : ℚ), f_eff]⟩]

/-- The violations appended while handling one trace event, with the
check/mutate interleaving of `verify_trace`: deadline-miss, VT-rate and
budget checks read the pre-mutation state; the VT<=deadline, EDF and
frequency checks read the post-mutation state. -/
def stepDelta (sched : String) (s : Core) (e : Event) : List Violation :=
  match e.kind with
  | .job_finished tid => check_no_deadline_miss s e.time tid
  | .virtual_time_update tid vt =>
      check_vt_rate s e.time tid vt
        ++ check_vt_le_deadline (processEvent s e) e.time tid vt
  | .serv_budget_replenished tid budget => check_budget_formula s e.time tid budget
  | .frequency_update cid f =>
      let s1 := processEvent s e
      check_frequency s1 e.time cid f sched
        ++ check_ffa_frequency s1 e.time cid f sched
        ++ check_csf_frequency s1 e.time cid f sched
  | .task_scheduled tid _ => check_edf_ordering (processEvent s e) e.time tid
  | _ => []

/-- The state reached after one trace event (mutation plus, for VT updates,
the flag-reset "post" step that runs after the checks). -/
def coreStep (s : Core) (e : Event) : Core :=
  match e.kind with
  | .virtual_time_update tid _ => post_virtual_time_update (processEvent s e) tid
  | _ => processEvent s e

/-- A tracker: core state plus the append-only violation list. -/
structure Tracker where
  core : Core
  violations : List Violation

/-- Handling of one event by the `verify_trace` loop: run the checks in
dispatch order (appending their violations) and apply the state mutation. -/
def stepEvent (sched : String) (t : Tracker) (e : Event) : Tracker :=
  { core := coreStep t.core e,
    violations := t.violations ++ stepDelta sched t.core e }

/-- `StateTracker.__init__` from a platform and a scenario (tids and cluster
ids are unique in their lists, as Python dict keys). -/
def initCore (clusters : List ClusterInfo) (tasks : List TaskInfo) : Core :=
  { clusters := fun cid => clusters.find? (fun c => c.cluster_id == cid),
    task_info := fun tid => tasks.find? (fun t => t.tid == tid),
    servers := [],
    cpu_to_tid := [],
    cluster_freq := fun _ => none,
    tid_to_cluster := fun _ => none,
    future_jobs := fun tid =>
      match tasks.find? (fun t => t.tid == tid) with
      | some t => sortQ t.job_arrivals
      | none => [],
    max_ever_scheduler_util := fun _ => 0 }

/-- One step of the `verify_trace` pre-scan: append a `job_arrival` timestamp
to the tid's future-job list when not already present. -/
def prescanStep (fj : ℕ → List ℚ) (e : Event) : ℕ → List ℚ :=
  match e.kind with
  | .job_arrival tid =>
      fun u =>
        if u = tid then
          if e.time ∈ fj tid then fj tid else fj tid ++ [e.time]
        else fj u
  | _ => fj

/-- The `verify_trace` pre-scan: collect job arrivals from the trace on top of
the scenario's, then `sorted(set(...))` each list (for absent tids this sorts
`[]`, which is what Python's `.get(tid, [])` reads anyway). -/
def prescan (trace : List Event) (fj : ℕ → List ℚ) : ℕ → List ℚ :=
  fun u => sortQ ((trace.foldl prescanStep fj) u).dedup

/-- The fully initialized tracker `verify_trace` starts from. -/
def initTracker (clusters : List ClusterInfo) (tasks : List TaskInfo)
    (trace : List Event) : Tracker :=
  let c0 := initCore clusters tasks
  { core := { c0 with future_jobs := prescan trace c0.future_jobs },
    violations := [] }

/-- `verify_trace`: process the whole trace and return the violations.  The
source groups same-timestamp entries into batches, but every entry of a batch
is handled identically in stream order, so the grouping is the identity and
the loop is a fold. -/
def verify_trace (trace : List Event) (clusters : List ClusterInfo)
    (tasks : List TaskInfo) (sched : String) : List Violation :=
  (trace.foldl (stepEvent sched) (initTracker clusters tasks trace)).violations

/-- The state after folding a trace through the per-event mutation. -/
def runCore (s : Core) (trace : List Event) : Core := trace.foldl coreStep s

/-- The violations appended while folding a trace from a given state. -/
def runDelta (sched : String) (s : Core) : List Event → List Violation
  | [] => []
  | e :: tr => stepDelta sched s e ++ runDelta sched (coreStep s e) tr

/-- Spec-side description of the EDF-ordering check: one violation per other
server that is attached, Ready, in the same cluster and has a deadline more
than the tolerance below the scheduled server's — with no tie-breaking branch
(the claim states the inner tie test of the source is unreachable). -/
def edf_expected (s : Core) (time : ℚ) (tid : ℕ) : List Violation :=
  match findSrv s tid with
  | none => []
  | some sv =>
    match s.tid_to_cluster tid with
    | none => []
    | some cid =>
      s.servers.filterMap (fun other =>
        if other.tid ≠ tid ∧ s.tid_to_cluster other.tid = some cid
            ∧ other.state = SState.ready ∧ other.in_scheduler = true
            ∧ other.deadline < sv.deadline - ABS_TOL then
          some ⟨"edf_ordering", time, some tid,
            [(tid : ℚ), sv.deadline, (other.tid : ℚ), other.deadline]⟩
        else none)

/-- The task ids an event references. -/
def eventTids : EKind → List ℕ
  | .job_arrival tid => [tid]
  | .job_finished tid => [tid]
  | .task_placed tid _ => [tid]
  | .task_scheduled tid _ => [tid]
  | .task_preempted tid => [tid]
  | .task_rejected => []
  | .serv_ready tid _ _ => [tid]
  | .serv_running tid => [tid]
  | .serv_non_cont tid => [tid]
  | .serv_inactive tid => [tid]
  | .serv_postpone tid _ => [tid]
  | .serv_budget_replenished tid _ => [tid]
  | .serv_budget_exhausted tid => [tid]
  | .virtual_time_update tid _ => [tid]
  | .frequency_update _ _ => []
  | .proc_activated => []
  | .proc_idled _ => []
  | .proc_sleep => []
  | .proc_change => []
  | .resched => []
  | .sim_finished => []
  | .migration_cluster tid _ => [tid]

/-- The cluster ids an event references. -/
def eventClusters : EKind → List ℕ
  | .task_placed _ cid => [cid]
  | .frequency_update cid _ => [cid]
  | .migration_cluster _ cid => [cid]
  | _ => []

/-- An event references only server id `t`. -/
def RefsOnlyTid (t : ℕ) (e : Event) : Prop :=
  ∀ u ∈ eventTids e.kind, u = t

/-- An event is confined to server id `t` and cluster id `c`. -/
def Confined (t c : ℕ) (e : Event) : Prop :=
  (∀ u ∈ eventTids e.kind, u = t) ∧ (∀ d ∈ eventClusters e.kind, d = c)

/-- Every event of a trace is confined to server `t` and cluster `c`. -/
def ConfinedTrace (t c : ℕ) (tr : List Event) : Prop :=
  ∀ e ∈ tr, Confined t c e

/-- The servers relevant to server id `t` and cluster id `c`: the sublist of
`servers` whose entries either are server `t` or sit in cluster `c`. -/
def relServers (s : Core) (t c : ℕ) : List ServerTracker :=
  s.servers.filter (fun sv => sv.tid == t || s.tid_to_cluster sv.tid == some c)

/-- Two tracker states agree on everything that the handling of events
confined to server `t` and cluster `c` can read or write (the cpu occupancy
map and the per-cluster frequency record influence no violation and are
ignored). -/
structure Agree (t c : ℕ) (s s' : Core) : Prop where
  clusters : s.clusters = s'.clusters
  taskinfo : s.task_info t = s'.task_info t
  futures : s.future_jobs t = s'.future_jobs t
  cmap : s.tid_to_cluster t = s'.tid_to_cluster t
  maxev : s.max_ever_scheduler_util c = s'.max_ever_scheduler_util c
  rel : relServers s t c = relServers s' t c

/-- Server `t` is assigned to no cluster or to cluster `c`. -/
def CMapOK (t c : ℕ) (s : Core) : Prop :=
  s.tid_to_cluster t = none ∨ s.tid_to_cluster t = some c

/-- No server other than `t` is assigned to cluster `c`. -/
def OnlyTidIn (t c : ℕ) (s : Core) : Prop :=
  ∀ u, s.tid_to_cluster u = some c → u = t

/-- A derived state keeps the three read-only tables of the base state: the
platform description, the scenario task table and the declared future-job
arrivals (no event handler ever writes them). -/
def SameTables (s' s : Core) : Prop :=
  s'.clusters = s.clusters ∧ s'.task_info = s.task_info ∧ s'.future_jobs = s.future_jobs

/-- A single-cluster tracker state fixture used to instantiate theorems on
concrete inputs. -/
def coreFx (cl : ClusterInfo) (srvs : List ServerTracker) (assign : ℕ → Option ℕ)
    (fj : ℕ → List ℚ) (maxev : ℕ → ℚ) : Core :=
  { clusters := fun cid => if cid = cl.cluster_id then some cl else none,
    task_info := fun _ => none,
    servers := srvs,
    cpu_to_tid := [],
    cluster_freq := fun _ => none,
    tid_to_cluster := assign,
    future_jobs := fj,
    max_ever_scheduler_util := maxev }

/-- The platform of the round-trip counterexample: one single-processor
cluster. -/
def cexClusters : List ClusterInfo := [mkClusterInfo 0 1 [1000] 0 1 1]

/-- First sub-trace of the round-trip counterexample: server 1 is placed in
cluster 0 and becomes Ready with deadline 100, and stays attached. -/
def cexT1 : List Event :=
  [⟨0, .task_placed 1 0⟩, ⟨0, .serv_ready 1 100 (1/2)⟩]

/-- Second sub-trace of the round-trip counterexample: server 2 is placed in
the same cluster, becomes Ready with the later deadline 200 and is scheduled. -/
def cexT2 : List Event :=
  [⟨10, .task_placed 2 0⟩, ⟨10, .serv_ready 2 200 (3/10)⟩, ⟨10, .task_scheduled 2 0⟩]

/-! Helper lemmas bridging the executable arithmetic to the Mathlib
operations used in the claim statements. -/

theorem absQ_eq_abs (a : ℚ) : absQ a = |a| := by
  rw [absQ]
  split
  · next h => rw [abs_of_neg h]
  · next h => rw [abs_of_nonneg (not_lt.mp h)]

theorem rat_ceil_eq_ceil (q : ℚ) : Rat.ceil q = ⌈q⌉ := by
  rw [Rat.ceil]
  split
  · next h =>
    have hq : (q.num : ℚ) = q := (Rat.den_eq_one_iff q).mp h
    conv_rhs => rw [← hq]
    rw [Int.ceil_intCast]
  · next h =>
    have hfl : (q.num / (q.den : ℤ)) = ⌊q⌋ := Rat.floor_def.symm
    rw [hfl]
    have hne : ((⌊q⌋ : ℚ)) ≠ q := by
      intro he
      exact h (by rw [← he]; exact Rat.den_intCast ⌊q⌋)
    have hlt : ((⌊q⌋ : ℚ)) < q := lt_of_le_of_ne (Int.floor_le q) hne
    symm
    rw [Int.ceil_eq_iff]
    constructor
    · push_cast
      linarith
    · have := Int.lt_floor_add_one q
      push_cast
      linarith

theorem approx_eq_true_iff (a b : ℚ) :
    approx_eq a b = true ↔
      (|a - b| ≤ ABS_TOL ∨ |a - b| / max |a| |b| ≤ REL_TOL) := by
  rw [approx_eq, absQ_eq_abs, absQ_eq_abs, absQ_eq_abs]
  by_cases h1 : |a - b| ≤ ABS_TOL
  · simp [h1]
  · rw [if_neg h1]
    by_cases h2 : max |a| |b| = 0
    · exfalso
      have ha : a = 0 := abs_eq_zero.mp (le_antisymm (le_of_max_le_left h2.le) (abs_nonneg a))
      have hb : b = 0 := abs_eq_zero.mp (le_antisymm (le_of_max_le_right h2.le) (abs_nonneg b))
      apply h1
      rw [ha, hb]
      norm_num [ABS_TOL]
    · simp [h2, h1]

theorem ite_lt_zero_eq_max (x : ℚ) : (if x < 0 then (0 : ℚ) else x) = max 0 x := by
  rcases le_or_lt 0 x with h | h
  · rw [if_neg (not_lt.mpr h), max_eq_right h]
  · rw [if_pos h, max_eq_left h.le]

theorem find?_eq_head?_filter {α : Type} (p : α → Bool) (l : List α) :
    l.find? p = (l.filter p).head? := by
  induction l with
  | nil => rfl
  | cons x xs ih =>
    by_cases h : p x
    · rw [List.find?_cons_of_pos _ h, List.filter_cons_of_pos h, List.head?_cons]
    · rw [List.find?_cons_of_neg _ (by simpa using h),
        List.filter_cons_of_neg (by simpa using h), ih]

theorem filterMap_congr_mem {α β : Type} {f g : α → Option β} {l : List α}
    (h : ∀ a ∈ l, f a = g a) : l.filterMap f = l.filterMap g := by
  induction l with
  | nil => rfl
  | cons x xs ih =>
    rw [List.filterMap_cons, List.filterMap_cons, h x (List.mem_cons_self x xs),
      ih fun a ha => h a (List.mem_cons_of_mem x ha)]

theorem filterMap_filter_of_none {α β : Type} (f : α → Option β) (p : α → Bool)
    (l : List α) (h : ∀ a, p a = false → f a = none) :
    (l.filter p).filterMap f = l.filterMap f := by
  induction l with
  | nil => rfl
  | cons x xs ih =>
    by_cases hp : p x
    · rw [List.filter_cons_of_pos hp, List.filterMap_cons, List.filterMap_cons, ih]
    · simp only [Bool.not_eq_true] at hp
      rw [List.filter_cons_of_neg (by simp [hp]), List.filterMap_cons, h x hp, ih]

theorem mem_insertDescQ {x y : ℚ} {l : List ℚ} :
    y ∈ insertDescQ x l ↔ y = x ∨ y ∈ l := by
  induction l with
  | nil => simp [insertDescQ]
  | cons z zs ih =>
    rw [insertDescQ]
    split
    · simp
    · simp only [List.mem_cons, ih]
      tauto

theorem sorted_insertDescQ (x : ℚ) {l : List ℚ} (h : List.Sorted (· ≥ ·) l) :
    List.Sorted (· ≥ ·) (insertDescQ x l) := by
  induction l with
  | nil => simp [insertDescQ]
  | cons z zs ih =>
    rw [List.sorted_cons] at h
    rw [insertDescQ]
    split
    · next hz =>
      refine List.sorted_cons.mpr ⟨?_, List.sorted_cons.mpr h⟩
      intro b hb
      rcases List.mem_cons.mp hb with rfl | hb
      · exact hz.le
      · exact (h.1 b hb).trans hz.le
    · next hz =>
      refine List.sorted_cons.mpr ⟨?_, ih h.2⟩
      intro b hb
      rcases mem_insertDescQ.mp hb with rfl | hb
      · exact not_lt.mp hz
      · exact h.1 b hb

theorem sortDescQ_sorted (l : List ℚ) : List.Sorted (· ≥ ·) (sortDescQ l) := by
  induction l with
  | nil => exact List.sorted_nil
  | cons x xs ih => exact sorted_insertDescQ x ih

theorem ctmGo_spec (f : ℚ) (prev : ℚ) (ys : List ℚ)
    (hp : f ≤ prev) (hs : List.Sorted (· ≥ ·) (prev :: ys)) :
    ctmGo f prev ys ∈ prev :: ys ∧ f ≤ ctmGo f prev ys ∧
      ∀ g ∈ prev :: ys, f ≤ g → ctmGo f prev ys ≤ g := by
  induction ys generalizing prev with
  | nil =>
    refine ⟨List.mem_singleton.mpr rfl, hp, ?_⟩
    intro g hg _
    rw [List.mem_singleton.mp hg]
    exact le_refl _
  | cons y ys ih =>
    rw [List.sorted_cons] at hs
    rw [ctmGo]
    split
    · next hy =>
      refine ⟨List.mem_cons_self _ _, hp, ?_⟩
      intro g hg hfg
      rcases List.mem_cons.mp hg with rfl | hg
      · exact le_refl _
      · rcases List.mem_cons.mp hg with rfl | hg
        · exact absurd (lt_of_le_of_lt hfg hy) (lt_irrefl f)
        · exact absurd (lt_of_le_of_lt hfg
            (lt_of_le_of_lt (List.rel_of_sorted_cons hs.2 g hg) hy))
            (lt_irrefl f)
    · next hy =>
      have hfy : f ≤ y := not_lt.mp hy
      obtain ⟨hmem, hle, hmin⟩ := ih y hfy hs.2
      refine ⟨List.mem_cons_of_mem _ hmem, hle, ?_⟩
      intro g hg hfg
      rcases List.mem_cons.mp hg with rfl | hg
      · exact le_trans (hmin y (List.mem_cons_self _ _) hfy)
          (hs.1 y (List.mem_cons_self _ _))
      · exact hmin g hg hfg

/-- C3: on every cluster with a nonempty (descending-sorted) frequency list,
`ceil_to_mode` returns the smallest available frequency that is at least the
input; when the input exceeds every mode it returns the maximum mode, and when
it is at or below every mode it returns the minimum mode. -/
theorem claim_C3_ceil_to_mode (c : ClusterInfo) (f : ℚ)
    (hne : c.frequencies ≠ []) (hs : List.Sorted (· ≥ ·) c.frequencies) :
    ((∃ g ∈ c.frequencies, f ≤ g) →
      ceil_to_mode c f ∈ c.frequencies ∧ f ≤ ceil_to_mode c f ∧
        ∀ g ∈ c.frequencies, f ≤ g → ceil_to_mode c f ≤ g) ∧
    ((∀ g ∈ c.frequencies, g < f) →
      ceil_to_mode c f ∈ c.frequencies ∧ ∀ g ∈ c.frequencies, g ≤ ceil_to_mode c f) ∧
    ((∀ g ∈ c.frequencies, f ≤ g) →
      ceil_to_mode c f ∈ c.frequencies ∧ ∀ g ∈ c.frequencies, ceil_to_mode c f ≤ g) := by
  rw [ceil_to_mode]
  rcases hl : c.frequencies with _ | ⟨x, xs⟩
  · exact absurd hl hne
  · rw [hl] at hs
    rw [ctm]
    by_cases hx : x < f
    · rw [if_pos hx]
      have hall : ∀ g ∈ x :: xs, g ≤ x := by
        intro g hg
        rcases List.mem_cons.mp hg with rfl | hg
        · exact le_refl _
        · exact List.rel_of_sorted_cons hs g hg
      refine ⟨?_, ?_, ?_⟩
      · rintro ⟨g, hg, hfg⟩
        exact absurd (lt_of_le_of_lt hfg (lt_of_le_of_lt (hall g hg) hx)) (lt_irrefl f)
      · intro _
        exact ⟨List.mem_cons_self _ _, hall⟩
      · intro hge
        exact absurd (lt_of_le_of_lt (hge x (List.mem_cons_self _ _)) hx) (lt_irrefl f)
    · rw [if_neg hx]
      obtain ⟨hmem, hle, hmin⟩ := ctmGo_spec f x xs (not_lt.mp hx) hs
      refine ⟨fun _ => ⟨hmem, hle, hmin⟩, ?_, ?_⟩
      · intro halllt
        exact absurd (lt_of_le_of_lt hle (halllt _ hmem)) (lt_irrefl f)
      · intro hge
        exact ⟨hmem, fun g hg => hmin g hg (hge g hg)⟩

/-- C3 witness: a concrete cluster (frequencies loaded as `[500, 2000, 1000]`,
sorted to `[2000, 1000, 500]`) and the input `1500`, exercising the
smallest-mode-above part of the claim. -/
theorem claim_C3_ceil_to_mode_witness :
    ceil_to_mode (mkClusterInfo 0 1 [500, 2000, 1000] 0 1 1) 1500
        ∈ (mkClusterInfo 0 1 [500, 2000, 1000] 0 1 1).frequencies ∧
      (1500 : ℚ) ≤ ceil_to_mode (mkClusterInfo 0 1 [500, 2000, 1000] 0 1 1) 1500 ∧
      ∀ g ∈ (mkClusterInfo 0 1 [500, 2000, 1000] 0 1 1).frequencies,
        (1500 : ℚ) ≤ g → ceil_to_mode (mkClusterInfo 0 1 [500, 2000, 1000] 0 1 1) 1500 ≤ g :=
  (claim_C3_ceil_to_mode (mkClusterInfo 0 1 [500, 2000, 1000] 0 1 1) 1500
      (by with_unfolding_all decide) (by with_unfolding_all decide)).1
    ⟨2000, by with_unfolding_all decide, by norm_num⟩

/-- C8: the EDF-ordering check appends a violation for another server exactly
when that server has a different tid, sits in the same cluster, is attached
and Ready, and its deadline is more than the tolerance below the scheduled
server's deadline; the inner tie-breaking branch of the source is unreachable
(`check_edf_ordering` coincides with the branch-free `edf_expected`). -/
theorem claim_C8_edf_ordering (s : Core) (time : ℚ) (tid : ℕ) :
    check_edf_ordering s time tid = edf_expected s time tid := by
  rw [check_edf_ordering, edf_expected]
  cases hfs : findSrv s tid with
  | none => rfl
  | some sv =>
    cases hcl : s.tid_to_cluster tid with
    | none => rfl
    | some cid =>
      refine filterMap_congr_mem ?_
      intro other _
      by_cases h1 : other.tid = tid
      · simp [h1]
      · by_cases h2 : s.tid_to_cluster other.tid = some cid
        · by_cases h3 : other.state = SState.ready
          · by_cases h4 : other.in_scheduler
            · by_cases h5 : other.deadline < sv.deadline - ABS_TOL
              · have habs : ¬ absQ (other.deadline - sv.deadline) ≤ ABS_TOL := by
                  rw [absQ_eq_abs]
                  intro hc
                  rw [abs_le] at hc
                  linarith [hc.1]
                simp [h1, h2, h3, h4, h5, habs]
              · simp [h1, h2, h3, h4, h5]
            · simp [h1, h2, h3, h4]
          · simp [h1, h2, h3]
        · simp [h1, h2]

/-- C9: the VT-rate check returns without a violation whenever the scaled
utilization is nonpositive, the bandwidth is nonpositive, or the elapsed wall
time is at most the `1e-9` threshold — so the division by `scaled_u` is only
reached with a strictly positive divisor — and `approx_eq` answers `true` at a
zero denominator without dividing. -/
theorem claim_C9_vt_rate_guards :
    (∀ (s : Core) (time : ℚ) (tid : ℕ) (vt : ℚ),
        scaled_util s tid ≤ 0 → check_vt_rate s time tid vt = []) ∧
    (∀ (s : Core) (time : ℚ) (tid : ℕ) (vt : ℚ) (cid : ℕ),
        s.tid_to_cluster tid = some cid → compute_bandwidth s cid ≤ 0 →
          check_vt_rate s time tid vt = []) ∧
    (∀ (s : Core) (time : ℚ) (tid : ℕ) (vt : ℚ) (sv : ServerTracker) (pt : ℚ),
        findSrv s tid = some sv → sv.cur_vt_update_time = some pt →
          time - pt ≤ EPS9 → check_vt_rate s time tid vt = []) ∧
    (∀ a b : ℚ, max |a| |b| = 0 → approx_eq a b = true) := by
  refine ⟨?_, ?_, ?_, ?_⟩
  · intro s time tid vt hsu
    simp only [check_vt_rate]
    repeat' split
    all_goals rfl
  · intro s time tid vt cid hcl hbw
    simp only [check_vt_rate, hcl]
    repeat' split
    all_goals rfl
  · intro s time tid vt sv pt hfs hct hdw
    simp only [check_vt_rate, hfs, hct]
    repeat' split
    all_goals rfl
  · intro a b h
    rw [approx_eq]
    by_cases h1 : absQ (a - b) ≤ ABS_TOL
    · rw [if_pos h1]
    · rw [if_neg h1, if_pos (by rw [absQ_eq_abs, absQ_eq_abs]; exact h)]

/-- C1: at a `serv_budget_replenished` event for a tracked server with a known
cluster, when the bandwidth is positive a `budget_formula` violation is
recorded iff the reported budget differs from
`max 0 ((scaled_utilization / bandwidth) * (deadline - virtual_time))` beyond
the combined tolerance (`ABS_TOL = REL_TOL = 1e-4`), where deadline and
virtual time are the values tracked just before the event mutates state; when
the bandwidth is nonpositive, or the server or its cluster is unknown, no
violation is recorded. -/
theorem claim_C1_budget_formula (sched : String) (t : Tracker) (time budget : ℚ) (tid : ℕ) :
    (∀ sv cid bw su exp, findSrv t.core tid = some sv →
      t.core.tid_to_cluster tid = some cid →
      compute_bandwidth t.core cid = bw →
      scaled_util t.core tid = su →
      max 0 (su / bw * (sv.deadline - sv.virtual_time)) = exp →
      (0 < bw →
        (stepEvent sched t ⟨time, .serv_budget_replenished tid budget⟩).violations =
          t.violations ++
            (if |budget - exp| ≤ ABS_TOL ∨ |budget - exp| / max |budget| |exp| ≤ REL_TOL
             then []
             else [⟨"budget_formula", time, some tid,
               [budget, exp, sv.deadline, sv.virtual_time, su, bw]⟩])) ∧
      (bw ≤ 0 →
        (stepEvent sched t ⟨time, .serv_budget_replenished tid budget⟩).violations =
          t.violations)) ∧
    (findSrv t.core tid = none →
      (stepEvent sched t ⟨time, .serv_budget_replenished tid budget⟩).violations =
        t.violations) ∧
    (t.core.tid_to_cluster tid = none →
      (stepEvent sched t ⟨time, .serv_budget_replenished tid budget⟩).violations =
        t.violations) := by
  refine ⟨?_, ?_, ?_⟩
  · intro sv cid bw su exp hfs hcl hbw hsu hexp
    constructor
    · intro hpos
      simp only [stepEvent, stepDelta, check_budget_formula, hfs, hcl, hbw, hsu]
      rw [if_neg (not_le.mpr hpos), ite_lt_zero_eq_max, hexp]
      by_cases htol : (|budget - exp| ≤ ABS_TOL ∨ |budget - exp| / max |budget| |exp| ≤ REL_TOL)
      · rw [if_pos htol, if_pos ((approx_eq_true_iff budget exp).mpr htol)]
      · rw [if_neg htol, if_neg (fun hc => htol ((approx_eq_true_iff budget exp).mp hc))]
    · intro hle
      simp only [stepEvent, stepDelta, check_budget_formula, hfs, hcl, hbw]
      rw [if_pos hle, List.append_nil]
  · intro hfs
    simp only [stepEvent, stepDelta, check_budget_formula, hfs]
    rw [List.append_nil]
  · intro hcl
    cases hfs : findSrv t.core tid with
    | none =>
      simp only [stepEvent, stepDelta, check_budget_formula, hfs]
      rw [List.append_nil]
    | some sv =>
      simp only [stepEvent, stepDelta, check_budget_formula, hfs, hcl]
      rw [List.append_nil]

/-- C1 witness: a single attached server of utilization 1/2 on a
one-processor cluster (bandwidth 1/2), deadline 10 and virtual time 0, so the
expected budget is 10; a reported budget of 10 is within tolerance and no
violation is appended. -/
theorem claim_C1_budget_formula_witness :
    0 < (1/2 : ℚ) ∧
    (stepEvent "grub"
        ⟨coreFx (mkClusterInfo 0 1 [1000] 0 1 1)
          [{ tid := 1, utilization := 1/2, period := 10, deadline := 10,
             state := SState.ready, in_scheduler := true }]
          (fun u => if u = 1 then some 0 else none) (fun _ => []) (fun _ => 0), []⟩
        ⟨7, .serv_budget_replenished 1 10⟩).violations =
      [] ++
        (if |(10 : ℚ) - 10| ≤ ABS_TOL ∨ |(10 : ℚ) - 10| / max |(10 : ℚ)| |(10 : ℚ)| ≤ REL_TOL
         then []
         else [⟨"budget_formula", 7, some 1, [10, 10, 10, 0, 1/2, 1/2]⟩]) :=
  ⟨by norm_num,
    ((claim_C1_budget_formula "grub"
        ⟨coreFx (mkClusterInfo 0 1 [1000] 0 1 1)
          [{ tid := 1, utilization := 1/2, period := 10, deadline := 10,
             state := SState.ready, in_scheduler := true }]
          (fun u => if u = 1 then some 0 else none) (fun _ => []) (fun _ => 0), []⟩
        7 10 1).1
      { tid := 1, utilization := 1/2, period := 10, deadline := 10,
        state := SState.ready, in_scheduler := true }
      0 (1/2) (1/2) 10
      (by with_unfolding_all decide) (by with_unfolding_all decide)
      (by with_unfolding_all decide) (by with_unfolding_all decide)
      (by with_unfolding_all decide)).1
    (by norm_num)⟩

theorem check_frequency_empty (s : Core) (time : ℚ) (cid : ℕ) (f : ℚ) (sched : String)
    (h : servers_in_cluster s cid = []) : check_frequency s time cid f sched = [] := by
  simp only [check_frequency, h, List.isEmpty_nil]
  repeat' split
  all_goals first | rfl | exact absurd trivial (by assumption)

theorem check_ffa_frequency_empty (s : Core) (time : ℚ) (cid : ℕ) (f : ℚ) (sched : String)
    (h : active_servers_in_cluster s cid = []) :
    check_ffa_frequency s time cid f sched = [] := by
  simp only [check_ffa_frequency, h, List.isEmpty_nil]
  repeat' split
  all_goals first | rfl | exact absurd trivial (by assumption)

theorem check_csf_frequency_empty (s : Core) (time : ℚ) (cid : ℕ) (f : ℚ) (sched : String)
    (h : active_servers_in_cluster s cid = []) :
    check_csf_frequency s time cid f sched = [] := by
  simp only [check_csf_frequency, h, List.isEmpty_nil]
  repeat' split
  all_goals first | rfl | exact absurd trivial (by assumption)

/-- C10: a `frequency_update` on a cluster with no attached server records no
PA violation, one with no Ready/Running server records no FFA and no CSF
violation, and when both relevant sets are empty the whole event handling
reduces to the state mutation with the violation list unchanged. -/
theorem claim_C10_empty_cluster_frequency :
    (∀ (s : Core) (time : ℚ) (cid : ℕ) (f : ℚ) (sched : String),
        servers_in_cluster s cid = [] → check_frequency s time cid f sched = []) ∧
    (∀ (s : Core) (time : ℚ) (cid : ℕ) (f : ℚ) (sched : String),
        active_servers_in_cluster s cid = [] →
          check_ffa_frequency s time cid f sched = [] ∧
            check_csf_frequency s time cid f sched = []) ∧
    (∀ (sched : String) (t : Tracker) (time : ℚ) (cid : ℕ) (f : ℚ),
        servers_in_cluster t.core cid = [] → active_servers_in_cluster t.core cid = [] →
          (stepEvent sched t ⟨time, .frequency_update cid f⟩).core =
              processEvent t.core ⟨time, .frequency_update cid f⟩ ∧
            (stepEvent sched t ⟨time, .frequency_update cid f⟩).violations = t.violations) := by
  refine ⟨fun s time cid f sched h => check_frequency_empty s time cid f sched h,
    fun s time cid f sched h =>
      ⟨check_ffa_frequency_empty s time cid f sched h,
        check_csf_frequency_empty s time cid f sched h⟩,
    ?_⟩
  intro sched t time cid f h1 h2
  have hs1 : servers_in_cluster (processEvent t.core ⟨time, .frequency_update cid f⟩) cid
      = servers_in_cluster t.core cid := rfl
  have ha1 : active_servers_in_cluster (processEvent t.core ⟨time, .frequency_update cid f⟩) cid
      = active_servers_in_cluster t.core cid := rfl
  refine ⟨rfl, ?_⟩
  show t.violations ++ stepDelta sched t.core ⟨time, .frequency_update cid f⟩ = t.violations
  simp only [stepDelta]
  rw [check_frequency_empty _ _ _ _ _ (hs1.trans h1),
    check_ffa_frequency_empty _ _ _ _ _ (ha1.trans h2),
    check_csf_frequency_empty _ _ _ _ _ (ha1.trans h2)]
  simp

/-- C10 witness: a tracker with no servers at all; the frequency update only
records the new cluster frequency and appends no violation. -/
theorem claim_C10_empty_cluster_frequency_witness :
    (stepEvent "pa"
        ⟨coreFx (mkClusterInfo 0 1 [1000] 0 1 1) [] (fun _ => none)
          (fun _ => []) (fun _ => 0), []⟩
        ⟨3, .frequency_update 0 500⟩).core =
        processEvent
          (coreFx (mkClusterInfo 0 1 [1000] 0 1 1) [] (fun _ => none)
            (fun _ => []) (fun _ => 0))
          ⟨3, .frequency_update 0 500⟩ ∧
      (stepEvent "pa"
        ⟨coreFx (mkClusterInfo 0 1 [1000] 0 1 1) [] (fun _ => none)
          (fun _ => []) (fun _ => 0), []⟩
        ⟨3, .frequency_update 0 500⟩).violations = [] :=
  claim_C10_empty_cluster_frequency.2.2 "pa"
    ⟨coreFx (mkClusterInfo 0 1 [1000] 0 1 1) [] (fun _ => none)
      (fun _ => []) (fun _ => 0), []⟩
    3 0 500 (by with_unfolding_all decide) (by with_unfolding_all decide)

theorem updateSrv_max_ever (s : Core) (tid : ℕ) (f : ServerTracker → ServerTracker) :
    (updateSrv s tid f).max_ever_scheduler_util = s.max_ever_scheduler_util := rfl

theorem mark_max_ever (s : Core) (cid : ℕ) :
    (mark_bandwidth_changed s cid).max_ever_scheduler_util = s.max_ever_scheduler_util := rfl

theorem readyEnsure_max_ever (s : Core) (tid : ℕ) (u : ℚ) :
    (readyEnsure s tid u).max_ever_scheduler_util = s.max_ever_scheduler_util := by
  rw [readyEnsure]
  split <;> rfl

theorem readyEnsure_tid_to_cluster (s : Core) (tid : ℕ) (u : ℚ) :
    (readyEnsure s tid u).tid_to_cluster = s.tid_to_cluster := by
  rw [readyEnsure]
  split <;> rfl

theorem readyEnsure_clusters (s : Core) (tid : ℕ) (u : ℚ) :
    (readyEnsure s tid u).clusters = s.clusters := by
  rw [readyEnsure]
  split <;> rfl

theorem readyAttach_max_ever (s : Core) (time : ℚ) (tid : ℕ) :
    (readyAttach s time tid).max_ever_scheduler_util = s.max_ever_scheduler_util := by
  simp only [readyAttach]
  split <;> rfl

theorem on_job_arrival_max_ever (s : Core) (tid : ℕ) :
    (on_job_arrival s tid).max_ever_scheduler_util = s.max_ever_scheduler_util := by
  rw [on_job_arrival]
  repeat' split
  all_goals rfl

theorem on_serv_inactive_max_ever (s : Core) (time : ℚ) (tid : ℕ) :
    (on_serv_inactive s time tid).max_ever_scheduler_util = s.max_ever_scheduler_util := by
  simp only [on_serv_inactive]
  repeat' split
  all_goals rfl

theorem updateSrv_tid_to_cluster (s : Core) (tid : ℕ) (f : ServerTracker → ServerTracker) :
    (updateSrv s tid f).tid_to_cluster = s.tid_to_cluster := rfl

theorem updateSrv_clusters (s : Core) (tid : ℕ) (f : ServerTracker → ServerTracker) :
    (updateSrv s tid f).clusters = s.clusters := rfl

theorem ite_readyAttach_max_ever (P : Prop) [Decidable P] (s : Core) (time : ℚ) (tid : ℕ) :
    (if P then readyAttach s time tid else s).max_ever_scheduler_util
      = s.max_ever_scheduler_util := by
  split
  · exact readyAttach_max_ever s time tid
  · rfl

theorem readyWatermark_max_ever (s : Core) (tid : ℕ) (u : ℚ) :
    (readyWatermark s tid u).max_ever_scheduler_util =
      match s.tid_to_cluster tid with
      | none => s.max_ever_scheduler_util
      | some cid =>
        match s.clusters cid with
        | none => s.max_ever_scheduler_util
        | some cluster =>
          fun c =>
            if c = cid then
              max (s.max_ever_scheduler_util cid)
                (u * cluster.scale_speed / cluster.perf_score)
            else s.max_ever_scheduler_util c := by
  rw [readyWatermark]
  cases s.tid_to_cluster tid with
  | none => rfl
  | some cid =>
    dsimp only
    cases s.clusters cid with
    | none => rfl
    | some cluster => rfl

/-- The watermark after `_on_serv_ready`, as a function: unchanged unless the
server's cluster is known, in which case the entry for that cluster is raised
by the event utilization, scaled. -/
theorem on_serv_ready_max_ever (s : Core) (time : ℚ) (tid : ℕ) (d u : ℚ) :
    (on_serv_ready s time tid d u).max_ever_scheduler_util =
      match s.tid_to_cluster tid with
      | none => s.max_ever_scheduler_util
      | some cid =>
        match s.clusters cid with
        | none => s.max_ever_scheduler_util
        | some cluster =>
          fun c =>
            if c = cid then
              max (s.max_ever_scheduler_util cid)
                (u * cluster.scale_speed / cluster.perf_score)
            else s.max_ever_scheduler_util c := by
  simp only [on_serv_ready]
  rw [ite_readyAttach_max_ever, readyWatermark_max_ever]
  simp only [updateSrv_max_ever, updateSrv_clusters, updateSrv_tid_to_cluster,
    readyEnsure_max_ever, readyEnsure_clusters, readyEnsure_tid_to_cluster]

/-- C4: in a single run the per-cluster watermark starts at 0, never
decreases at any event, stays unchanged at every non-`serv_ready` event (in
particular `serv_inactive`), and at `serv_ready` with a known cluster it is
replaced by the maximum of its current value and the ready server's scaled
utilization. -/
theorem claim_C4_watermark_monotone (sched : String) :
    (∀ (clusters : List ClusterInfo) (tasks : List TaskInfo) (trace : List Event) (c : ℕ),
        (initTracker clusters tasks trace).core.max_ever_scheduler_util c = 0) ∧
    (∀ (t : Tracker) (e : Event) (c : ℕ),
        t.core.max_ever_scheduler_util c ≤
          (stepEvent sched t e).core.max_ever_scheduler_util c) ∧
    (∀ (t : Tracker) (e : Event) (c : ℕ),
        (∀ tid d u, e.kind ≠ EKind.serv_ready tid d u) →
          (stepEvent sched t e).core.max_ever_scheduler_util c =
            t.core.max_ever_scheduler_util c) ∧
    (∀ (t : Tracker) (time : ℚ) (tid : ℕ) (d u : ℚ) (cid : ℕ) (cluster : ClusterInfo),
        t.core.tid_to_cluster tid = some cid → t.core.clusters cid = some cluster →
          (stepEvent sched t ⟨time, .serv_ready tid d u⟩).core.max_ever_scheduler_util cid =
            max (t.core.max_ever_scheduler_util cid)
              (u * cluster.scale_speed / cluster.perf_score)) := by
  have hstep : ∀ (t : Tracker) (e : Event),
      (stepEvent sched t e).core = coreStep t.core e := fun _ _ => rfl
  have hne : ∀ (t : Tracker) (e : Event) (c : ℕ),
      (∀ tid d u, e.kind ≠ EKind.serv_ready tid d u) →
        (stepEvent sched t e).core.max_ever_scheduler_util c =
          t.core.max_ever_scheduler_util c := by
    intro t e c hno
    rw [hstep]
    rcases e with ⟨time, k⟩
    cases k with
    | serv_ready tid d u => exact absurd rfl (hno tid d u)
    | job_arrival tid =>
      simp only [coreStep, processEvent]
      rw [on_job_arrival_max_ever]
    | serv_inactive tid =>
      simp only [coreStep, processEvent]
      rw [on_serv_inactive_max_ever]
    | task_preempted tid =>
      simp only [coreStep, processEvent, on_task_preempted, updateSrv_max_ever]
    | virtual_time_update tid vt =>
      simp only [coreStep, processEvent, post_virtual_time_update,
        on_virtual_time_update, updateSrv_max_ever]
    | _ =>
      simp only [coreStep, processEvent, on_task_placed, updateSrv_max_ever]
  refine ⟨fun clusters tasks trace c => rfl, ?_, hne, ?_⟩
  · intro t e c
    rcases e with ⟨time, k⟩
    cases hk : k with
    | serv_ready tid d u =>
      rw [hstep]
      simp only [coreStep, processEvent]
      rw [on_serv_ready_max_ever]
      cases t.core.tid_to_cluster tid with
      | none => exact le_refl _
      | some cid =>
        dsimp only
        cases t.core.clusters cid with
        | none => exact le_refl _
        | some cluster =>
          dsimp only
          by_cases hc : c = cid
          · subst hc
            rw [if_pos rfl]
            exact le_max_left _ _
          · rw [if_neg hc]
    | _ =>
      rw [hne t ⟨time, _⟩ c (by intro tid d u h; exact EKind.noConfusion h)]
  · intro t time tid d u cid cluster hcl hcc
    rw [hstep]
    simp only [coreStep, processEvent]
    rw [on_serv_ready_max_ever, hcl]
    dsimp only
    rw [hcc]
    dsimp only
    rw [if_pos rfl]

/-- C4 witness: on the empty-platform initial tracker the watermark is 0, and
a `serv_inactive` event leaves it unchanged. -/
theorem claim_C4_watermark_monotone_witness :
    (stepEvent "grub" (initTracker [] [] []) ⟨1, .serv_inactive 5⟩).core.max_ever_scheduler_util 0
      = (initTracker [] [] []).core.max_ever_scheduler_util 0 :=
  (claim_C4_watermark_monotone "grub").2.2.1 (initTracker [] [] []) ⟨1, .serv_inactive 5⟩ 0
    (fun tid d u h => by exact EKind.noConfusion h)

/-- C5: a `csf` frequency check with at least one active (Ready/Running)
server and at least one tracked server in the cluster computes
`m_min = m` when `u_max ≥ 1` and `m_min = clamp(ceil((active_U - u_max)/(1 - u_max)), 1, m)`
otherwise, takes `min(f_max * (active_U + (m_min - 1) * u_max) / m_min, f_max)`,
floors it at the effective frequency when that is nonzero (the effective
frequency is a floor frequency, hence nonnegative, so nonzero means positive),
rounds with `ceil_to_mode`, and records a `csf_frequency` violation iff the
reported frequency differs beyond the combined tolerance. -/
theorem claim_C5_csf_frequency (s : Core) (time : ℚ) (cid : ℕ) (freq : ℚ)
    (cluster : ClusterInfo) (active_util u_max : ℚ) (m_min : ℤ)
    (raw fmin expected : ℚ)
    (hc : s.clusters cid = some cluster)
    (heff : 0 ≤ cluster.effective_freq)
    (ha : active_servers_in_cluster s cid ≠ [])
    (hall : all_servers_in_cluster s cid ≠ [])
    (hau : ((active_servers_in_cluster s cid).map (scaledOf cluster)).sum = active_util)
    (hum : maxQ ((all_servers_in_cluster s cid).map (scaledOf cluster)) = u_max)
    (hmm : (if u_max ≥ 1 then (cluster.num_procs : ℤ)
            else max 1 (min ⌈(active_util - u_max) / (1 - u_max)⌉ (cluster.num_procs : ℤ)))
          = m_min)
    (hraw : cluster.freq_max * (active_util + ((m_min : ℚ) - 1) * u_max) / (m_min : ℚ) = raw)
    (hfm : min raw cluster.freq_max = fmin)
    (hexp : (if cluster.effective_freq ≠ 0 ∧ fmin < cluster.effective_freq
             then ceil_to_mode cluster cluster.effective_freq
             else ceil_to_mode cluster fmin) = expected) :
    check_csf_frequency s time cid freq "csf" =
      (if |freq - expected| ≤ ABS_TOL ∨ |freq - expected| / max |freq| |expected| ≤ REL_TOL
       then []
       else [⟨"csf_frequency", time, none,
         [freq, expected, raw, active_util, u_max, (m_min : ℚ),
          (cluster.num_procs : ℚ), cluster.effective_freq]⟩]) := by
  have hane : ¬((active_servers_in_cluster s cid).isEmpty = true) :=
    fun h => ha (List.isEmpty_iff.mp h)
  have hallne : ¬((all_servers_in_cluster s cid).isEmpty = true) :=
    fun h => hall (List.isEmpty_iff.mp h)
  simp only [check_csf_frequency, if_neg (show ¬("csf" ≠ "csf") from fun h => h rfl), hc]
  rw [if_neg hane, if_neg hallne]
  simp only [rat_ceil_eq_ceil, hau, hum, hmm, hraw, hfm]
  have hcond : (cluster.effective_freq > 0 ∧ fmin < cluster.effective_freq) ↔
      (cluster.effective_freq ≠ 0 ∧ fmin < cluster.effective_freq) := by
    constructor
    · rintro ⟨h1, h2⟩
      exact ⟨ne_of_gt h1, h2⟩
    · rintro ⟨h1, h2⟩
      exact ⟨lt_of_le_of_ne heff (Ne.symm h1), h2⟩
  rw [show (if cluster.effective_freq > 0 ∧ fmin < cluster.effective_freq
        then ceil_to_mode cluster cluster.effective_freq
        else ceil_to_mode cluster fmin) = expected from by
      rw [← hexp]
      by_cases hp : cluster.effective_freq > 0 ∧ fmin < cluster.effective_freq
      · rw [if_pos hp, if_pos (hcond.mp hp)]
      · rw [if_neg hp, if_neg (fun hq => hp (hcond.mpr hq))]]
  by_cases htol : (|freq - expected| ≤ ABS_TOL ∨
      |freq - expected| / max |freq| |expected| ≤ REL_TOL)
  · rw [if_pos ((approx_eq_true_iff freq expected).mpr htol), if_pos htol]
  · rw [if_neg (fun hq => htol ((approx_eq_true_iff freq expected).mp hq)), if_neg htol]

/-- C5 witness: one active tracked server of scaled utilization 3/5 on a
two-processor cluster with modes `[2000, 1500, 1000, 500]` and no effective
floor; `m_min = 1`, the raw frequency is 1200, `ceil_to_mode` gives 1500, and
the reported frequency 1500 is within tolerance, so no violation. -/
theorem claim_C5_csf_frequency_witness :
    check_csf_frequency
        (coreFx (mkClusterInfo 0 2 [500, 1000, 1500, 2000] 0 1 1)
          [{ tid := 1, utilization := 3/5, period := 10, state := SState.ready,
             in_scheduler := true }]
          (fun u => if u = 1 then some 0 else none) (fun _ => []) (fun _ => 0))
        4 0 1500 "csf" =
      (if |(1500 : ℚ) - 1500| ≤ ABS_TOL ∨
          |(1500 : ℚ) - 1500| / max |(1500 : ℚ)| |(1500 : ℚ)| ≤ REL_TOL
       then []
       else [⟨"csf_frequency", 4, none, [1500, 1500, 1200, 3/5, 3/5, 1, 2, 0]⟩]) :=
  claim_C5_csf_frequency
    (coreFx (mkClusterInfo 0 2 [500, 1000, 1500, 2000] 0 1 1)
      [{ tid := 1, utilization := 3/5, period := 10, state := SState.ready,
         in_scheduler := true }]
      (fun u => if u = 1 then some 0 else none) (fun _ => []) (fun _ => 0))
    4 0 1500 (mkClusterInfo 0 2 [500, 1000, 1500, 2000] 0 1 1)
    (3/5) (3/5) 1 1200 1200 1500
    (by with_unfolding_all decide) (by with_unfolding_all decide)
    (by with_unfolding_all decide) (by with_unfolding_all decide)
    (by with_unfolding_all decide) (by with_unfolding_all decide)
    (by rw [show ((3:ℚ)/5 - 3/5) / (1 - 3/5) = 0 by norm_num]
        with_unfolding_all decide)
    (by with_unfolding_all decide) (by with_unfolding_all decide)
    (by with_unfolding_all decide)

theorem readyWatermark_tid_to_cluster (s : Core) (tid : ℕ) (u : ℚ) :
    (readyWatermark s tid u).tid_to_cluster = s.tid_to_cluster := by
  rw [readyWatermark]
  repeat' split
  all_goals rfl

theorem readyWatermark_servers (s : Core) (tid : ℕ) (u : ℚ) :
    (readyWatermark s tid u).servers = s.servers := by
  rw [readyWatermark]
  repeat' split
  all_goals rfl

/-- C2 counterexample: a server in state Inactive with a known cluster
becomes Ready (an attach); immediately afterwards its own
`bandwidth_may_have_changed` flag is `true`, not `false` — the cluster-wide
mark runs after the flag is cleared and does not exclude the attaching
server. -/
theorem claim_C2_counterexample :
    (findSrv (processEvent
        (coreFx (mkClusterInfo 0 1 [1000] 0 1 1)
          [{ tid := 1, utilization := 1/2, period := 10 }]
          (fun u => if u = 1 then some 0 else none) (fun _ => []) (fun _ => 0))
        ⟨5, .serv_ready 1 10 (1/2)⟩) 1).map
        (fun sv => sv.bandwidth_may_have_changed) = some true ∧
      (findSrv (processEvent
        (coreFx (mkClusterInfo 0 1 [1000] 0 1 1)
          [{ tid := 1, utilization := 1/2, period := 10 }]
          (fun u => if u = 1 then some 0 else none) (fun _ => []) (fun _ => 0))
        ⟨5, .serv_ready 1 10 (1/2)⟩) 1).map
        (fun sv => sv.bandwidth_may_have_changed) ≠ some false := by
  constructor
  · with_unfolding_all decide
  · with_unfolding_all decide

/-- C2 (amended): at a `serv_ready` event whose server was tracked in state
Inactive (an attach) with a known cluster, immediately after the event every
tracked server assigned to that cluster has `bandwidth_may_have_changed =
true` — including the attaching server itself: its freshly cleared flag is
overwritten by the cluster-wide mark, which does not exclude it.  (Every
other attached server in the cluster therefore has the flag set, as the
original claim stated; only the attaching server's value differs from the
claim.) -/
theorem claim_C2_amended (s : Core) (time : ℚ) (tid : ℕ) (d u : ℚ)
    (sv : ServerTracker) (cid : ℕ)
    (hfs : findSrv s tid = some sv) (hst : sv.state = SState.inactive)
    (hcl : s.tid_to_cluster tid = some cid) :
    ∀ sv' ∈ (processEvent s ⟨time, .serv_ready tid d u⟩).servers,
      s.tid_to_cluster sv'.tid = some cid → sv'.bandwidth_may_have_changed = true := by
  have hens : readyEnsure s tid u = s := by rw [readyEnsure, hfs]
  simp only [processEvent, on_serv_ready, hens, hfs, hst, eq_self_iff_true, if_true,
    readyAttach, updateSrv_tid_to_cluster, readyWatermark_tid_to_cluster, hcl]
  intro sv' hmem hcid
  simp only [mark_bandwidth_changed, List.mem_map] at hmem
  obtain ⟨sv0, hsv0, rfl⟩ := hmem
  have htid : (if ((updateSrv (readyWatermark (updateSrv s tid fun sv =>
        { sv with state := SState.ready, deadline := d, in_scheduler := true }) tid u)
          tid fun sv =>
          { sv with virtual_time := time,
                    prev_vt_update_time := none, prev_vt_update_value := none,
                    cur_vt_update_time := none, cur_vt_update_value := none,
                    ran_continuously := false,
                    bandwidth_may_have_changed := false }).tid_to_cluster sv0.tid
          == some cid) then { sv0 with bandwidth_may_have_changed := true }
        else sv0).tid = sv0.tid := by
    split <;> rfl
  rw [htid] at hcid
  rw [if_pos (by
    rw [updateSrv_tid_to_cluster, readyWatermark_tid_to_cluster, updateSrv_tid_to_cluster]
    exact beq_iff_eq.mpr hcid)]

/-- C2 witness for the amended claim: after the concrete attach, every
tracked server assigned to cluster 0 — here the attaching server itself —
carries the stale-bandwidth flag. -/
theorem claim_C2_amended_witness :
    ((processEvent
        (coreFx (mkClusterInfo 0 1 [1000] 0 1 1)
          [{ tid := 1, utilization := 1/2, period := 10 }]
          (fun u => if u = 1 then some 0 else none) (fun _ => []) (fun _ => 0))
        ⟨5, .serv_ready 1 10 (1/2)⟩).servers.all
      (fun sv' =>
        !((coreFx (mkClusterInfo 0 1 [1000] 0 1 1)
            [{ tid := 1, utilization := 1/2, period := 10 }]
            (fun u => if u = 1 then some 0 else none) (fun _ => [])
            (fun _ => 0)).tid_to_cluster sv'.tid == some 0)
          || sv'.bandwidth_may_have_changed)) = true := by
  have h := claim_C2_amended
    (coreFx (mkClusterInfo 0 1 [1000] 0 1 1)
      [{ tid := 1, utilization := 1/2, period := 10 }]
      (fun u => if u = 1 then some 0 else none) (fun _ => []) (fun _ => 0))
    5 1 10 (1/2) { tid := 1, utilization := 1/2, period := 10 } 0
    (by with_unfolding_all decide) (by with_unfolding_all decide)
    (by with_unfolding_all decide)
  refine List.all_eq_true.mpr ?_
  intro sv' hmem
  by_cases hc : (coreFx (mkClusterInfo 0 1 [1000] 0 1 1)
      [{ tid := 1, utilization := 1/2, period := 10 }]
      (fun u => if u = 1 then some 0 else none) (fun _ => [])
      (fun _ => 0)).tid_to_cluster sv'.tid = some 0
  · rw [h sv' hmem hc]
    exact Bool.or_true _
  · rw [beq_eq_false_iff_ne.mpr hc]
    rfl

/-- C6: the concrete PA scenario — cluster frequencies `[500,1000,1500,2000]`
(`f_max = 2000`), `m = 2`, `scale_speed = perf_score = 1`, attached scaled
utilization summing to 3/5, watermark 2/5.  The expected frequency is
`ceil_to_mode(min(2000*(0.4+0.6)/2, 2000)) = 1000`, and a reported frequency
of 1500 yields exactly one `frequency_formula` violation whose message values
contain the raw value 1000 (third message slot). -/
theorem claim_C6_pa_concrete :
    (stepEvent "pa"
        ⟨coreFx (mkClusterInfo 0 2 [500, 1000, 1500, 2000] 0 1 1)
          [{ tid := 1, utilization := 3/5, period := 10, state := SState.ready,
             in_scheduler := true }]
          (fun u => if u = 1 then some 0 else none) (fun _ => [])
          (fun c => if c = 0 then 2/5 else 0), []⟩
        ⟨50, .frequency_update 0 1500⟩).violations =
      [⟨"frequency_formula", 50, none, [1500, 1000, 1000, 3/5, 2/5, 2]⟩] ∧
    ∀ v ∈ (stepEvent "pa"
        ⟨coreFx (mkClusterInfo 0 2 [500, 1000, 1500, 2000] 0 1 1)
          [{ tid := 1, utilization := 3/5, period := 10, state := SState.ready,
             in_scheduler := true }]
          (fun u => if u = 1 then some 0 else none) (fun _ => [])
          (fun c => if c = 0 then 2/5 else 0), []⟩
        ⟨50, .frequency_update 0 1500⟩).violations,
      v.invariant = "frequency_formula" ∧ (1000 : ℚ) ∈ v.msgVals := by
  constructor
  · with_unfolding_all decide
  · with_unfolding_all decide

/-- C7 counterexample: two traces that each reference one distinct server id
(1 resp. 2) with disjoint time ranges, but in the same cluster.  Server 1
stays attached and Ready after `cexT1`, so when server 2 is scheduled in the
concatenated run the EDF check sees server 1's earlier deadline and records a
violation that neither independent run produces. -/
theorem claim_C7_counterexample :
    (∀ e ∈ cexT1, RefsOnlyTid 1 e) ∧ (∀ e ∈ cexT2, RefsOnlyTid 2 e) ∧
    (∀ e1 ∈ cexT1, ∀ e2 ∈ cexT2, e1.time < e2.time) ∧ (1 : ℕ) ≠ 2 ∧
    verify_trace (cexT1 ++ cexT2) cexClusters [] "grub" ≠
      verify_trace cexT1 cexClusters [] "grub" ++
        verify_trace cexT2 cexClusters [] "grub" := by
  refine ⟨?_, ?_, ?_, ?_, ?_⟩
  · intro e he
    rw [RefsOnlyTid]
    fin_cases he <;> simp [eventTids]
  · intro e he
    rw [RefsOnlyTid]
    fin_cases he <;> simp [eventTids]
  · intro e1 h1 e2 h2
    fin_cases h1 <;> fin_cases h2 <;> norm_num
  · norm_num
  · with_unfolding_all decide

/-! Machinery for the amended round-trip claim: processing of a trace
confined to one server id and one cluster id depends only on — and only
changes — the `Agree` projection of the tracker state for that pair, so two
cluster-disjoint single-server traces are processed independently. -/

theorem relServers_filter_tid (s : Core) (t c : ℕ) :
    (relServers s t c).filter (fun sv => sv.tid == t)
      = s.servers.filter (fun sv => sv.tid == t) := by
  rw [relServers, List.filter_filter]
  refine List.filter_congr ?_
  intro a _
  cases h : (a.tid == t) <;> simp [h]

theorem findSrv_eq_of_agree {t c : ℕ} {s s' : Core} (h : Agree t c s s') :
    findSrv s t = findSrv s' t := by
  rw [findSrv, findSrv, find?_eq_head?_filter, find?_eq_head?_filter,
    ← relServers_filter_tid s t c, ← relServers_filter_tid s' t c, h.rel]

theorem mem_relServers_cluster {s : Core} {t c : ℕ} {sv : ServerTracker}
    (hm : sv ∈ relServers s t c) (hne : sv.tid ≠ t) :
    s.tid_to_cluster sv.tid = some c := by
  rw [relServers, List.mem_filter] at hm
  rcases (Bool.or_eq_true _ _).mp hm.2 with h1 | h2
  · exact absurd (beq_iff_eq.mp h1) hne
  · exact beq_iff_eq.mp h2

theorem filter_cluster_eq_of_agree {t c : ℕ} {s s' : Core} (h : Agree t c s s')
    (b : ServerTracker → Bool) :
    s.servers.filter (fun sv => b sv && s.tid_to_cluster sv.tid == some c) =
      s'.servers.filter (fun sv => b sv && s'.tid_to_cluster sv.tid == some c) := by
  have e1 : ∀ x : Core,
      x.servers.filter (fun sv => b sv && x.tid_to_cluster sv.tid == some c) =
        (relServers x t c).filter (fun sv => b sv && x.tid_to_cluster sv.tid == some c) := by
    intro x
    rw [relServers, List.filter_filter]
    refine (List.filter_congr ?_).symm
    intro a _
    cases hb : b a
    · simp
    · cases hc : (x.tid_to_cluster a.tid == some c) <;> simp [hc]
  rw [e1 s, e1 s', ← h.rel]
  refine List.filter_congr ?_
  intro a ha
  by_cases hat : a.tid = t
  · rw [hat, h.cmap]
  · rw [mem_relServers_cluster ha hat, mem_relServers_cluster (h.rel ▸ ha) hat]

theorem all_servers_eq_of_agree {t c : ℕ} {s s' : Core} (h : Agree t c s s') :
    all_servers_in_cluster s c = all_servers_in_cluster s' c := by
  have e1 : ∀ x : Core,
      all_servers_in_cluster x c =
        x.servers.filter (fun sv => true && x.tid_to_cluster sv.tid == some c) := by
    intro x
    rw [all_servers_in_cluster]
    exact List.filter_congr fun a _ => by simp
  rw [e1 s, e1 s']
  exact filter_cluster_eq_of_agree h (fun _ => true)

theorem servers_in_cluster_eq_of_agree {t c : ℕ} {s s' : Core} (h : Agree t c s s') :
    servers_in_cluster s c = servers_in_cluster s' c := by
  rw [servers_in_cluster, servers_in_cluster]
  exact filter_cluster_eq_of_agree h (fun sv => sv.in_scheduler)

theorem active_servers_eq_of_agree {t c : ℕ} {s s' : Core} (h : Agree t c s s') :
    active_servers_in_cluster s c = active_servers_in_cluster s' c := by
  rw [active_servers_in_cluster, active_servers_in_cluster]
  exact filter_cluster_eq_of_agree h
    (fun sv => sv.state == SState.ready || sv.state == SState.running)

theorem compute_bandwidth_eq_of_agree {t c : ℕ} {s s' : Core} (h : Agree t c s s') :
    compute_bandwidth s c = compute_bandwidth s' c := by
  rw [compute_bandwidth, compute_bandwidth, ← h.clusters, servers_in_cluster_eq_of_agree h]

theorem scaled_util_eq_of_agree {t c : ℕ} {s s' : Core} (h : Agree t c s s') :
    scaled_util s t = scaled_util s' t := by
  rw [scaled_util, scaled_util, ← findSrv_eq_of_agree h, get_cluster, get_cluster,
    ← h.cmap, ← h.clusters]

theorem cid_eq_of_cmapok {t c : ℕ} {s : Core} {cid : ℕ} (hok : CMapOK t c s)
    (hcl : s.tid_to_cluster t = some cid) : cid = c := by
  rcases hok with h0 | h0
  · rw [h0] at hcl
    cases hcl
  · rw [h0] at hcl
    injection hcl with e
    exact e.symm

theorem check_no_deadline_miss_eq_of_agree {t c : ℕ} {s s' : Core} (h : Agree t c s s')
    (time : ℚ) : check_no_deadline_miss s time t = check_no_deadline_miss s' time t := by
  rw [check_no_deadline_miss, check_no_deadline_miss, ← findSrv_eq_of_agree h]

theorem check_vt_le_deadline_eq_of_agree {t c : ℕ} {s s' : Core} (h : Agree t c s s')
    (time vt : ℚ) : check_vt_le_deadline s time t vt = check_vt_le_deadline s' time t vt := by
  rw [check_vt_le_deadline, check_vt_le_deadline, ← findSrv_eq_of_agree h]

theorem check_budget_formula_eq_of_agree {t c : ℕ} {s s' : Core} (h : Agree t c s s')
    (hok : CMapOK t c s) (time budget : ℚ) :
    check_budget_formula s time t budget = check_budget_formula s' time t budget := by
  rw [check_budget_formula, check_budget_formula, ← findSrv_eq_of_agree h, ← h.cmap]
  cases findSrv s t with
  | none => rfl
  | some sv =>
    dsimp only
    cases hcl : s.tid_to_cluster t with
    | none => rfl
    | some cid =>
      dsimp only
      rw [cid_eq_of_cmapok hok hcl] at *
      rw [compute_bandwidth_eq_of_agree h, scaled_util_eq_of_agree h]

theorem check_vt_rate_eq_of_agree {t c : ℕ} {s s' : Core} (h : Agree t c s s')
    (hok : CMapOK t c s) (time vt : ℚ) :
    check_vt_rate s time t vt = check_vt_rate s' time t vt := by
  rw [check_vt_rate, check_vt_rate, ← findSrv_eq_of_agree h, ← h.cmap]
  cases findSrv s t with
  | none => rfl
  | some sv =>
    dsimp only
    cases hcl : s.tid_to_cluster t with
    | none => rfl
    | some cid =>
      dsimp only
      rw [cid_eq_of_cmapok hok hcl] at *
      rw [compute_bandwidth_eq_of_agree h, scaled_util_eq_of_agree h]

theorem check_frequency_eq_of_agree {t c : ℕ} {s s' : Core} (h : Agree t c s s')
    (time f : ℚ) (sched : String) :
    check_frequency s time c f sched = check_frequency s' time c f sched := by
  rw [check_frequency, check_frequency, ← h.clusters]
  cases s.clusters c with
  | none => rfl
  | some cluster =>
    dsimp only
    rw [servers_in_cluster_eq_of_agree h, h.maxev]

theorem check_ffa_frequency_eq_of_agree {t c : ℕ} {s s' : Core} (h : Agree t c s s')
    (time f : ℚ) (sched : String) :
    check_ffa_frequency s time c f sched = check_ffa_frequency s' time c f sched := by
  rw [check_ffa_frequency, check_ffa_frequency, ← h.clusters]
  cases s.clusters c with
  | none => rfl
  | some cluster =>
    dsimp only
    rw [active_servers_eq_of_agree h, all_servers_eq_of_agree h]

theorem check_csf_frequency_eq_of_agree {t c : ℕ} {s s' : Core} (h : Agree t c s s')
    (time f : ℚ) (sched : String) :
    check_csf_frequency s time c f sched = check_csf_frequency s' time c f sched := by
  rw [check_csf_frequency, check_csf_frequency, ← h.clusters]
  cases s.clusters c with
  | none => rfl
  | some cluster =>
    dsimp only
    rw [active_servers_eq_of_agree h, all_servers_eq_of_agree h]

theorem check_edf_ordering_eq_of_agree {t c : ℕ} {s s' : Core} (h : Agree t c s s')
    (hok : CMapOK t c s) (time : ℚ) :
    check_edf_ordering s time t = check_edf_ordering s' time t := by
  rw [check_edf_ordering, check_edf_ordering, ← findSrv_eq_of_agree h, ← h.cmap]
  cases findSrv s t with
  | none => rfl
  | some sv =>
    dsimp only
    cases hcl : s.tid_to_cluster t with
    | none => rfl
    | some cid =>
      dsimp only
      rw [cid_eq_of_cmapok hok hcl] at *
      have hn : ∀ (x : Core) (a : ServerTracker),
          (fun sv => sv.tid == t || x.tid_to_cluster sv.tid == some c) a = false →
          (fun other =>
            if other.tid == t then none
            else if !(x.tid_to_cluster other.tid == some c) then none
            else if !(other.state == SState.ready) then none
            else if !other.in_scheduler then none
            else if other.deadline < sv.deadline - ABS_TOL then
              if absQ (other.deadline - sv.deadline) ≤ ABS_TOL then none
              else some ⟨"edf_ordering", time, some t,
                [(t : ℚ), sv.deadline, (other.tid : ℚ), other.deadline]⟩
            else none) a = (none : Option Violation) := by
        intro x a hfalse
        rcases Bool.or_eq_false_iff.mp hfalse with ⟨h1, h2⟩
        simp only [h1, h2]
        rfl
      rw [← filterMap_filter_of_none _ _ s.servers (hn s),
        ← filterMap_filter_of_none _ _ s'.servers (hn s'), ← relServers, ← relServers,
        h.rel]
      refine filterMap_congr_mem ?_
      intro a ha
      by_cases hat : a.tid = t
      · simp only [hat, beq_self_eq_true]
        rfl
      · have h1 : s.tid_to_cluster a.tid = some c :=
          mem_relServers_cluster (h.rel ▸ ha) hat
        have h2 : s'.tid_to_cluster a.tid = some c := mem_relServers_cluster ha hat
        rw [h1, h2]

theorem relServers_updateSrv (s : Core) (t c tid0 : ℕ) (f : ServerTracker → ServerTracker)
    (hf : ∀ sv, (f sv).tid = sv.tid) :
    relServers (updateSrv s tid0 f) t c =
      (relServers s t c).map (fun sv => if sv.tid == tid0 then f sv else sv) := by
  rw [relServers, relServers, updateSrv, List.filter_map]
  refine congrArg (List.map _) ?_
  refine List.filter_congr ?_
  intro a _
  have ht : (if a.tid == tid0 then f a else a).tid = a.tid := by
    split
    · exact hf a
    · rfl
  dsimp only [Function.comp]
  rw [ht]

theorem relServers_mark (s : Core) (t c cid : ℕ) :
    relServers (mark_bandwidth_changed s cid) t c =
      (relServers s t c).map (fun sv =>
        if s.tid_to_cluster sv.tid == some cid
        then { sv with bandwidth_may_have_changed := true } else sv) := by
  rw [relServers, relServers, mark_bandwidth_changed, List.filter_map]
  refine congrArg (List.map _) ?_
  refine List.filter_congr ?_
  intro a _
  have ht : (if s.tid_to_cluster a.tid == some cid
      then { a with bandwidth_may_have_changed := true } else a).tid = a.tid := by
    split <;> rfl
  dsimp only [Function.comp]
  rw [ht]

theorem relServers_append (s : Core) (t c : ℕ) (sv : ServerTracker) :
    relServers { s with servers := s.servers ++ [sv] } t c =
      relServers s t c ++
        List.filter (fun sv => sv.tid == t || s.tid_to_cluster sv.tid == some c) [sv] := by
  rw [relServers, relServers]
  exact List.filter_append _ _

theorem relServers_set_cluster_self (s : Core) (t c cid : ℕ) :
    relServers (on_task_placed s t cid) t c = relServers s t c := by
  rw [relServers, relServers, on_task_placed]
  refine List.filter_congr ?_
  intro a _
  by_cases hat : a.tid = t
  · simp [hat]
  · simp [hat]

theorem agree_updateSrv {t c : ℕ} {s s' : Core} (h : Agree t c s s') (tid0 : ℕ)
    (f : ServerTracker → ServerTracker) (hf : ∀ sv, (f sv).tid = sv.tid) :
    Agree t c (updateSrv s tid0 f) (updateSrv s' tid0 f) := by
  refine ⟨h.clusters, h.taskinfo, h.futures, h.cmap, h.maxev, ?_⟩
  rw [relServers_updateSrv s t c tid0 f hf, relServers_updateSrv s' t c tid0 f hf, h.rel]

theorem agree_mark {t c : ℕ} {s s' : Core} (h : Agree t c s s') (cid : ℕ) :
    Agree t c (mark_bandwidth_changed s cid) (mark_bandwidth_changed s' cid) := by
  refine ⟨h.clusters, h.taskinfo, h.futures, h.cmap, h.maxev, ?_⟩
  rw [relServers_mark, relServers_mark, h.rel]
  refine List.map_congr_left ?_
  intro a ha
  by_cases hat : a.tid = t
  · rw [hat, h.cmap]
  · rw [mem_relServers_cluster (h.rel ▸ ha) hat, mem_relServers_cluster ha hat]

theorem agree_append {t c : ℕ} {s s' : Core} (h : Agree t c s s') (sv : ServerTracker)
    (htid : sv.tid = t) :
    Agree t c { s with servers := s.servers ++ [sv] }
      { s' with servers := s'.servers ++ [sv] } := by
  refine ⟨h.clusters, h.taskinfo, h.futures, h.cmap, h.maxev, ?_⟩
  rw [relServers_append, relServers_append, h.rel]
  simp [htid]

theorem agree_set_cluster {t c : ℕ} {s s' : Core} (h : Agree t c s s') (cid : ℕ) :
    Agree t c (on_task_placed s t cid) (on_task_placed s' t cid) := by
  refine ⟨h.clusters, h.taskinfo, h.futures, ?_, h.maxev, ?_⟩
  · rw [on_task_placed, on_task_placed]
    simp
  · rw [relServers_set_cluster_self, relServers_set_cluster_self, h.rel]

theorem agree_of_servers_map_untouched {t c : ℕ} (s s₂ s₂' : Core) {s' : Core}
    (h : Agree t c s s')
    (hcl : s₂.clusters = s.clusters) (hti : s₂.task_info = s.task_info)
    (hfj : s₂.future_jobs = s.future_jobs) (hmap : s₂.tid_to_cluster = s.tid_to_cluster)
    (hme : s₂.max_ever_scheduler_util = s.max_ever_scheduler_util)
    (hsrv : s₂.servers = s.servers)
    (hcl' : s₂'.clusters = s'.clusters) (hti' : s₂'.task_info = s'.task_info)
    (hfj' : s₂'.future_jobs = s'.future_jobs) (hmap' : s₂'.tid_to_cluster = s'.tid_to_cluster)
    (hme' : s₂'.max_ever_scheduler_util = s'.max_ever_scheduler_util)
    (hsrv' : s₂'.servers = s'.servers) :
    Agree t c s₂ s₂' := by
  refine ⟨?_, ?_, ?_, ?_, ?_, ?_⟩
  · rw [hcl, hcl', h.clusters]
  · rw [hti, hti', h.taskinfo]
  · rw [hfj, hfj', h.futures]
  · rw [hmap, hmap', h.cmap]
  · rw [hme, hme', h.maxev]
  · rw [relServers, relServers, hsrv, hsrv', hmap, hmap']
    exact h.rel

theorem agree_set_cpu {t c : ℕ} {s s' : Core} (h : Agree t c s s')
    (l l' : List (ℕ × Option ℕ)) :
    Agree t c { s with cpu_to_tid := l } { s' with cpu_to_tid := l' } :=
  ⟨h.clusters, h.taskinfo, h.futures, h.cmap, h.maxev, h.rel⟩

theorem agree_set_freq {t c : ℕ} {s s' : Core} (h : Agree t c s s')
    (g g' : ℕ → Option ℚ) :
    Agree t c { s with cluster_freq := g } { s' with cluster_freq := g' } :=
  ⟨h.clusters, h.taskinfo, h.futures, h.cmap, h.maxev, h.rel⟩

theorem agree_on_job_arrival {t c : ℕ} {s s' : Core} (h : Agree t c s s') :
    Agree t c (on_job_arrival s t) (on_job_arrival s' t) := by
  rw [on_job_arrival, on_job_arrival, ← findSrv_eq_of_agree h]
  cases findSrv s t with
  | some sv => exact h
  | none =>
    dsimp only
    rw [← h.taskinfo]
    cases s.task_info t with
    | none => exact h
    | some ti => exact agree_append h _ rfl

theorem agree_readyEnsure {t c : ℕ} {s s' : Core} (h : Agree t c s s') (u : ℚ) :
    Agree t c (readyEnsure s t u) (readyEnsure s' t u) := by
  rw [readyEnsure, readyEnsure, ← findSrv_eq_of_agree h]
  cases findSrv s t with
  | some sv => exact h
  | none =>
    dsimp only
    rw [← h.taskinfo]
    exact agree_append h _ rfl

theorem agree_readyWatermark {t c : ℕ} {s s' : Core} (h : Agree t c s s') (u : ℚ) :
    Agree t c (readyWatermark s t u) (readyWatermark s' t u) := by
  rw [readyWatermark, readyWatermark, ← h.cmap]
  cases s.tid_to_cluster t with
  | none => exact h
  | some cid =>
    dsimp only
    rw [← h.clusters]
    cases s.clusters cid with
    | none => exact h
    | some cluster =>
      dsimp only
      refine ⟨rfl, h.taskinfo, h.futures, h.cmap, ?_, ?_⟩
      · by_cases hcc : c = cid
        · subst hcc
          simp only [if_pos rfl]
          rw [h.maxev]
        · simp only [if_neg hcc]
          exact h.maxev
      · rw [relServers, relServers]
        exact h.rel

theorem agree_readyAttach {t c : ℕ} {s s' : Core} (h : Agree t c s s') (time : ℚ) :
    Agree t c (readyAttach s time t) (readyAttach s' time t) := by
  simp only [readyAttach]
  have h3 := agree_updateSrv h t
    (fun sv =>
      { sv with virtual_time := time,
                prev_vt_update_time := none, prev_vt_update_value := none,
                cur_vt_update_time := none, cur_vt_update_value := none,
                ran_continuously := false, bandwidth_may_have_changed := false })
    (fun sv => rfl)
  rw [updateSrv_tid_to_cluster, updateSrv_tid_to_cluster, ← h.cmap]
  cases s.tid_to_cluster t with
  | none => exact h3
  | some cid => exact agree_mark h3 cid

theorem agree_on_serv_ready {t c : ℕ} {s s' : Core} (h : Agree t c s s') (time d u : ℚ) :
    Agree t c (on_serv_ready s time t d u) (on_serv_ready s' time t d u) := by
  simp only [on_serv_ready]
  have he := agree_readyEnsure h u
  have hold : (match findSrv (readyEnsure s' t u) t with
      | some sv => sv.state
      | none => SState.inactive)
      = (match findSrv (readyEnsure s t u) t with
      | some sv => sv.state
      | none => SState.inactive) := by
    rw [findSrv_eq_of_agree he]
  rw [hold]
  have h1 := agree_updateSrv he t
    (fun sv => { sv with state := SState.ready, deadline := d, in_scheduler := true })
    (fun sv => rfl)
  have h2 := agree_readyWatermark h1 u
  by_cases hcond : (match findSrv (readyEnsure s t u) t with
      | some sv => sv.state
      | none => SState.inactive) = SState.inactive
  · rw [if_pos hcond, if_pos hcond]
    exact agree_readyAttach h2 time
  · rw [if_neg hcond, if_neg hcond]
    exact h2

theorem agree_on_serv_inactive {t c : ℕ} {s s' : Core} (h : Agree t c s s') (time : ℚ) :
    Agree t c (on_serv_inactive s time t) (on_serv_inactive s' time t) := by
  rw [on_serv_inactive, on_serv_inactive, ← findSrv_eq_of_agree h]
  cases findSrv s t with
  | none => exact h
  | some sv =>
    dsimp only
    have h1 := agree_updateSrv h t
      (fun sv => { sv with state := SState.inactive, ran_continuously := false })
      (fun sv => rfl)
    have hfut : has_future_job (updateSrv s' t (fun sv =>
        { sv with state := SState.inactive, ran_continuously := false })) t time
        = has_future_job (updateSrv s t (fun sv =>
        { sv with state := SState.inactive, ran_continuously := false })) t time := by
      rw [has_future_job, has_future_job]
      have : (updateSrv s' t (fun sv =>
          { sv with state := SState.inactive, ran_continuously := false })).future_jobs t
          = (updateSrv s t (fun sv =>
          { sv with state := SState.inactive, ran_continuously := false })).future_jobs t := by
        show s'.future_jobs t = s.future_jobs t
        exact h.futures.symm
      rw [this]
    rw [hfut]
    by_cases hf2 : has_future_job (updateSrv s t (fun sv =>
        { sv with state := SState.inactive, ran_continuously := false })) t time
    · rw [if_pos hf2, if_pos hf2]
      exact h1
    · rw [if_neg hf2, if_neg hf2]
      have h2 := agree_updateSrv h1 t (fun sv => { sv with in_scheduler := false })
        (fun sv => rfl)
      rw [updateSrv_tid_to_cluster, updateSrv_tid_to_cluster,
        updateSrv_tid_to_cluster, updateSrv_tid_to_cluster, ← h.cmap]
      cases s.tid_to_cluster t with
      | none => exact h2
      | some cid => exact agree_mark h2 cid

theorem agree_on_task_preempted {t c : ℕ} {s s' : Core} (h : Agree t c s s') :
    Agree t c (on_task_preempted s t) (on_task_preempted s' t) := by
  rw [on_task_preempted, on_task_preempted]
  exact agree_updateSrv (agree_set_cpu h _ _) t _ (fun sv => rfl)

theorem agree_on_virtual_time_update {t c : ℕ} {s s' : Core} (h : Agree t c s s')
    (time vt : ℚ) :
    Agree t c (on_virtual_time_update s time vt t) (on_virtual_time_update s' time vt t) := by
  rw [on_virtual_time_update, on_virtual_time_update]
  exact agree_updateSrv h t _ (fun sv => rfl)

theorem agree_post_vt {t c : ℕ} {s s' : Core} (h : Agree t c s s') :
    Agree t c (post_virtual_time_update s t) (post_virtual_time_update s' t) := by
  rw [post_virtual_time_update, post_virtual_time_update]
  exact agree_updateSrv h t _ (fun sv => rfl)

/-- Handling an event confined to server `t` and cluster `c` preserves
agreement of the `(t, c)` projection. -/
theorem processEvent_agree {t c : ℕ} {s s' : Core} (h : Agree t c s s')
    (e : Event) (hc : Confined t c e) :
    Agree t c (processEvent s e) (processEvent s' e) := by
  rcases e with ⟨time, k⟩
  cases k with
  | job_arrival tid =>
    obtain rfl : t = tid := (hc.1 tid (by simp [eventTids])).symm
    exact agree_on_job_arrival h
  | job_finished tid => exact h
  | task_placed tid cid =>
    obtain rfl : t = tid := (hc.1 tid (by simp [eventTids])).symm
    obtain rfl : c = cid := (hc.2 cid (by simp [eventClusters])).symm
    exact agree_set_cluster h c
  | task_scheduled tid cpu => exact agree_set_cpu h _ _
  | task_preempted tid =>
    obtain rfl : t = tid := (hc.1 tid (by simp [eventTids])).symm
    exact agree_on_task_preempted h
  | task_rejected => exact h
  | serv_ready tid d u =>
    obtain rfl : t = tid := (hc.1 tid (by simp [eventTids])).symm
    exact agree_on_serv_ready h time d u
  | serv_running tid =>
    obtain rfl : t = tid := (hc.1 tid (by simp [eventTids])).symm
    exact agree_updateSrv h t _ (fun sv => rfl)
  | serv_non_cont tid =>
    obtain rfl : t = tid := (hc.1 tid (by simp [eventTids])).symm
    exact agree_updateSrv h t _ (fun sv => rfl)
  | serv_inactive tid =>
    obtain rfl : t = tid := (hc.1 tid (by simp [eventTids])).symm
    exact agree_on_serv_inactive h time
  | serv_postpone tid d =>
    obtain rfl : t = tid := (hc.1 tid (by simp [eventTids])).symm
    exact agree_updateSrv h t _ (fun sv => rfl)
  | serv_budget_replenished tid b => exact h
  | serv_budget_exhausted tid => exact h
  | virtual_time_update tid vt =>
    obtain rfl : t = tid := (hc.1 tid (by simp [eventTids])).symm
    exact agree_on_virtual_time_update h time vt
  | frequency_update cid f => exact agree_set_freq h _ _
  | proc_activated => exact h
  | proc_idled cpu => exact agree_set_cpu h _ _
  | proc_sleep => exact h
  | proc_change => exact h
  | resched => exact h
  | sim_finished => exact h
  | migration_cluster tid cid =>
    obtain rfl : t = tid := (hc.1 tid (by simp [eventTids])).symm
    obtain rfl : c = cid := (hc.2 cid (by simp [eventClusters])).symm
    exact agree_set_cluster h c

theorem mark_tid_to_cluster (s : Core) (cid : ℕ) :
    (mark_bandwidth_changed s cid).tid_to_cluster = s.tid_to_cluster := rfl

theorem readyAttach_tid_to_cluster (s : Core) (time : ℚ) (tid : ℕ) :
    (readyAttach s time tid).tid_to_cluster = s.tid_to_cluster := by
  simp only [readyAttach]
  split <;> rfl

theorem on_serv_ready_tid_to_cluster (s : Core) (time : ℚ) (tid : ℕ) (d u : ℚ) :
    (on_serv_ready s time tid d u).tid_to_cluster = s.tid_to_cluster := by
  simp only [on_serv_ready]
  split
  · rw [readyAttach_tid_to_cluster, readyWatermark_tid_to_cluster,
      updateSrv_tid_to_cluster, readyEnsure_tid_to_cluster]
  · rw [readyWatermark_tid_to_cluster, updateSrv_tid_to_cluster,
      readyEnsure_tid_to_cluster]

theorem on_serv_inactive_tid_to_cluster (s : Core) (time : ℚ) (tid : ℕ) :
    (on_serv_inactive s time tid).tid_to_cluster = s.tid_to_cluster := by
  simp only [on_serv_inactive]
  repeat' split
  all_goals rfl

theorem on_job_arrival_tid_to_cluster (s : Core) (tid : ℕ) :
    (on_job_arrival s tid).tid_to_cluster = s.tid_to_cluster := by
  rw [on_job_arrival]
  repeat' split
  all_goals rfl

/-- Only `task_placed` / `migration_cluster` touch the cluster assignment. -/
theorem processEvent_tid_to_cluster (s : Core) (e : Event)
    (h : ∀ tid cid, e.kind ≠ EKind.task_placed tid cid ∧
        e.kind ≠ EKind.migration_cluster tid cid) :
    (processEvent s e).tid_to_cluster = s.tid_to_cluster := by
  rcases e with ⟨time, k⟩
  cases k with
  | job_arrival tid => exact on_job_arrival_tid_to_cluster s tid
  | task_placed tid cid => exact absurd rfl (h tid cid).1
  | migration_cluster tid cid => exact absurd rfl (h tid cid).2
  | serv_ready tid d u => exact on_serv_ready_tid_to_cluster s time tid d u
  | serv_inactive tid => exact on_serv_inactive_tid_to_cluster s time tid
  | task_preempted tid => rfl
  | virtual_time_update tid vt => rfl
  | _ => rfl

theorem coreStep_tid_to_cluster (s : Core) (e : Event)
    (h : ∀ tid cid, e.kind ≠ EKind.task_placed tid cid ∧
        e.kind ≠ EKind.migration_cluster tid cid) :
    (coreStep s e).tid_to_cluster = s.tid_to_cluster := by
  rcases e with ⟨time, k⟩
  cases k with
  | virtual_time_update tid vt => rfl
  | _ => exact processEvent_tid_to_cluster _ _ h

theorem processEvent_cmapok {t c : ℕ} {s : Core} (hok : CMapOK t c s) (e : Event)
    (hc : Confined t c e) : CMapOK t c (processEvent s e) := by
  rcases e with ⟨time, k⟩
  cases k with
  | task_placed tid cid =>
    obtain rfl : t = tid := (hc.1 tid (by simp [eventTids])).symm
    obtain rfl : c = cid := (hc.2 cid (by simp [eventClusters])).symm
    right
    simp [processEvent, on_task_placed]
  | migration_cluster tid cid =>
    obtain rfl : t = tid := (hc.1 tid (by simp [eventTids])).symm
    obtain rfl : c = cid := (hc.2 cid (by simp [eventClusters])).symm
    right
    simp [processEvent, on_task_placed]
  | _ =>
    rw [CMapOK, processEvent_tid_to_cluster s _ (by intro tid cid; exact ⟨by simp, by simp⟩)]
    exact hok

theorem coreStep_cmapok {t c : ℕ} {s : Core} (hok : CMapOK t c s) (e : Event)
    (hc : Confined t c e) : CMapOK t c (coreStep s e) := by
  rcases e with ⟨time, k⟩
  cases k with
  | virtual_time_update tid vt =>
    exact processEvent_cmapok hok ⟨time, .virtual_time_update tid vt⟩ hc
  | _ => exact processEvent_cmapok hok ⟨time, _⟩ hc

/-- Two states that agree on the `(t, c)` projection append identical
violations when handling an event confined to `(t, c)`. -/
theorem stepDelta_eq_of_agree {t c : ℕ} {s s' : Core} (h : Agree t c s s')
    (hok : CMapOK t c s) (sched : String) (e : Event) (hc : Confined t c e) :
    stepDelta sched s e = stepDelta sched s' e := by
  rcases e with ⟨time, k⟩
  cases k with
  | job_finished tid =>
    obtain rfl : t = tid := (hc.1 tid (by simp [eventTids])).symm
    exact check_no_deadline_miss_eq_of_agree h time
  | virtual_time_update tid vt =>
    obtain rfl : t = tid := (hc.1 tid (by simp [eventTids])).symm
    have hp := processEvent_agree h ⟨time, .virtual_time_update t vt⟩ hc
    simp only [stepDelta]
    rw [check_vt_rate_eq_of_agree h hok time vt, check_vt_le_deadline_eq_of_agree hp time vt]
  | serv_budget_replenished tid b =>
    obtain rfl : t = tid := (hc.1 tid (by simp [eventTids])).symm
    exact check_budget_formula_eq_of_agree h hok time b
  | frequency_update cid f =>
    obtain rfl : c = cid := (hc.2 cid (by simp [eventClusters])).symm
    have hp := processEvent_agree h ⟨time, .frequency_update c f⟩ hc
    simp only [stepDelta]
    rw [check_frequency_eq_of_agree hp time f sched,
      check_ffa_frequency_eq_of_agree hp time f sched,
      check_csf_frequency_eq_of_agree hp time f sched]
  | task_scheduled tid cpu =>
    obtain rfl : t = tid := (hc.1 tid (by simp [eventTids])).symm
    have hp := processEvent_agree h ⟨time, .task_scheduled t cpu⟩ hc
    have hpok : CMapOK t c (processEvent s ⟨time, .task_scheduled t cpu⟩) :=
      processEvent_cmapok hok _ hc
    simp only [stepDelta]
    exact check_edf_ordering_eq_of_agree hp hpok time
  | _ => rfl

theorem coreStep_agree {t c : ℕ} {s s' : Core} (h : Agree t c s s')
    (e : Event) (hc : Confined t c e) :
    Agree t c (coreStep s e) (coreStep s' e) := by
  rcases e with ⟨time, k⟩
  cases k with
  | virtual_time_update tid vt =>
    obtain rfl : t = tid := (hc.1 tid (by simp [eventTids])).symm
    exact agree_post_vt (processEvent_agree h ⟨time, .virtual_time_update t vt⟩ hc)
  | _ => exact processEvent_agree h ⟨time, _⟩ hc

/-- Folding a confined trace from two states that agree on its projection
yields identical appended violations, and preserves agreement. -/
theorem runDelta_eq_of_agree {t c : ℕ} (sched : String) :
    ∀ (tr : List Event) (s s' : Core), Agree t c s s' → CMapOK t c s →
      ConfinedTrace t c tr →
      runDelta sched s tr = runDelta sched s' tr ∧
        Agree t c (runCore s tr) (runCore s' tr) ∧ CMapOK t c (runCore s tr) := by
  intro tr
  induction tr with
  | nil =>
    intro s s' h hok _
    exact ⟨rfl, h, hok⟩
  | cons e tr ih =>
    intro s s' h hok hconf
    have hce : Confined t c e := hconf e (List.mem_cons_self _ _)
    have hctr : ConfinedTrace t c tr := fun e' he' => hconf e' (List.mem_cons_of_mem _ he')
    obtain ⟨d1, a1, k1⟩ := ih (coreStep s e) (coreStep s' e)
      (coreStep_agree h e hce) (coreStep_cmapok hok e hce) hctr
    refine ⟨?_, a1, k1⟩
    rw [runDelta, runDelta, stepDelta_eq_of_agree h hok sched e hce, d1]

/-- The `verify_trace` fold in terms of `runCore` and `runDelta`. -/
theorem foldl_stepEvent_eq (sched : String) :
    ∀ (tr : List Event) (T : Tracker),
      tr.foldl (stepEvent sched) T =
        ⟨runCore T.core tr, T.violations ++ runDelta sched T.core tr⟩ := by
  intro tr
  induction tr with
  | nil =>
    intro T
    cases T
    simp [runCore, runDelta]
  | cons e tr ih =>
    intro T
    rw [List.foldl_cons, ih]
    show (⟨runCore (coreStep T.core e) tr,
      (T.violations ++ stepDelta sched T.core e) ++
        runDelta sched (coreStep T.core e) tr⟩ : Tracker) = _
    rw [List.append_assoc]
    rfl

theorem agree_refl (t c : ℕ) (s : Core) : Agree t c s s :=
  ⟨rfl, rfl, rfl, rfl, rfl, rfl⟩

theorem agree_trans {t c : ℕ} {a b d : Core} (h1 : Agree t c a b) (h2 : Agree t c b d) :
    Agree t c a d :=
  ⟨h1.clusters.trans h2.clusters, h1.taskinfo.trans h2.taskinfo,
    h1.futures.trans h2.futures, h1.cmap.trans h2.cmap,
    h1.maxev.trans h2.maxev, h1.rel.trans h2.rel⟩

theorem mem_relServers_tid {t c : ℕ} {s : Core} (honly : OnlyTidIn t c s) :
    ∀ a ∈ relServers s t c, a.tid = t := by
  intro a ha
  by_cases hat : a.tid = t
  · exact hat
  · exact honly _ (mem_relServers_cluster ha hat)

theorem map_ne_of_only {t c t' : ℕ} {s : Core} (honly : OnlyTidIn t c s) (hne : t' ≠ t) :
    s.tid_to_cluster t' ≠ some c := fun h => hne (honly t' h)

theorem relServers_updateSrv_other {t c t' : ℕ} (s : Core)
    (f : ServerTracker → ServerTracker) (hf : ∀ sv, (f sv).tid = sv.tid)
    (honly : OnlyTidIn t c s) (hne : t' ≠ t) :
    relServers (updateSrv s t' f) t c = relServers s t c := by
  rw [relServers_updateSrv s t c t' f hf]
  refine (List.map_congr_left ?_).trans (List.map_id _)
  intro a ha
  have hat := mem_relServers_tid honly a ha
  have hb : (a.tid == t') = false := by
    rw [hat]
    exact beq_eq_false_iff_ne.mpr (fun h => hne h.symm)
  simp [hb]

theorem relServers_append_other {t c : ℕ} (s : Core) (sv : ServerTracker)
    (hne : sv.tid ≠ t) (hmap : s.tid_to_cluster sv.tid ≠ some c) :
    relServers { s with servers := s.servers ++ [sv] } t c = relServers s t c := by
  rw [relServers_append]
  have h1 : (sv.tid == t) = false := beq_eq_false_iff_ne.mpr hne
  have h2 : (s.tid_to_cluster sv.tid == some c) = false := beq_eq_false_iff_ne.mpr hmap
  simp [List.filter, h1, h2]

theorem relServers_mark_other {t c : ℕ} (s : Core) (cid : ℕ) (hok : CMapOK t c s)
    (honly : OnlyTidIn t c s) (hcid : cid ≠ c) :
    relServers (mark_bandwidth_changed s cid) t c = relServers s t c := by
  rw [relServers_mark]
  refine (List.map_congr_left ?_).trans (List.map_id _)
  intro a ha
  have hat := mem_relServers_tid honly a ha
  have hcond : (s.tid_to_cluster a.tid == some cid) = false := by
    rw [hat]
    rcases hok with h0 | h0 <;> rw [h0]
    · rfl
    · exact beq_eq_false_iff_ne.mpr (fun h => hcid (by injection h with h; exact h.symm))
  simp [hcond]

theorem relServers_set_cluster_other {t c : ℕ} (s : Core) (t' cid' : ℕ) (hne : t' ≠ t)
    (hmap : s.tid_to_cluster t' ≠ some c) (hcid : cid' ≠ c) :
    relServers (on_task_placed s t' cid') t c = relServers s t c := by
  rw [relServers, relServers, on_task_placed]
  refine List.filter_congr ?_
  intro a _
  by_cases hat : a.tid = t'
  · rw [hat]
    simp only [eq_self_iff_true, if_true]
    have h1 : (some cid' == some c : Bool) = false :=
      beq_eq_false_iff_ne.mpr (fun h => hcid (by injection h))
    have h2 : (s.tid_to_cluster t' == some c) = false := beq_eq_false_iff_ne.mpr hmap
    rw [h1, h2]
  · simp only [if_neg hat]

theorem readyWatermark_max_ever_other {t c t' : ℕ} (s : Core) (u : ℚ)
    (honly : OnlyTidIn t c s) (hne : t' ≠ t) :
    (readyWatermark s t' u).max_ever_scheduler_util c = s.max_ever_scheduler_util c := by
  rw [readyWatermark_max_ever]
  cases hm : s.tid_to_cluster t' with
  | none => rfl
  | some cid =>
    dsimp only
    cases s.clusters cid with
    | none => rfl
    | some cluster =>
      dsimp only
      rw [if_neg (fun h => hne (honly t' (by rw [hm, h])))]

theorem sameTables_refl (s : Core) : SameTables s s := ⟨rfl, rfl, rfl⟩

theorem sameTables_trans {a b d : Core} (h1 : SameTables a b) (h2 : SameTables b d) :
    SameTables a d :=
  ⟨h1.1.trans h2.1, h1.2.1.trans h2.2.1, h1.2.2.trans h2.2.2⟩

theorem updateSrv_tables (s : Core) (tid : ℕ) (f : ServerTracker → ServerTracker) :
    SameTables (updateSrv s tid f) s := ⟨rfl, rfl, rfl⟩

theorem mark_tables (s : Core) (cid : ℕ) :
    SameTables (mark_bandwidth_changed s cid) s := ⟨rfl, rfl, rfl⟩

theorem on_job_arrival_tables (s : Core) (tid : ℕ) :
    SameTables (on_job_arrival s tid) s := by
  rw [SameTables, on_job_arrival]
  repeat' split
  all_goals exact ⟨rfl, rfl, rfl⟩

theorem readyEnsure_tables (s : Core) (tid : ℕ) (u : ℚ) :
    SameTables (readyEnsure s tid u) s := by
  rw [SameTables, readyEnsure]
  repeat' split
  all_goals exact ⟨rfl, rfl, rfl⟩

theorem readyWatermark_tables (s : Core) (tid : ℕ) (u : ℚ) :
    SameTables (readyWatermark s tid u) s := by
  rw [SameTables, readyWatermark]
  repeat' split
  all_goals exact ⟨rfl, rfl, rfl⟩

theorem readyAttach_tables (s : Core) (time : ℚ) (tid : ℕ) :
    SameTables (readyAttach s time tid) s := by
  rw [SameTables, readyAttach]
  split
  all_goals exact ⟨rfl, rfl, rfl⟩

theorem on_serv_ready_tables (s : Core) (time : ℚ) (tid : ℕ) (d u : ℚ) :
    SameTables (on_serv_ready s time tid d u) s := by
  rw [on_serv_ready]
  split
  · exact sameTables_trans (readyAttach_tables _ _ _)
      (sameTables_trans (readyWatermark_tables _ _ _)
        (sameTables_trans (updateSrv_tables _ _ _) (readyEnsure_tables s tid u)))
  · exact sameTables_trans (readyWatermark_tables _ _ _)
      (sameTables_trans (updateSrv_tables _ _ _) (readyEnsure_tables s tid u))

theorem on_serv_inactive_tables (s : Core) (time : ℚ) (tid : ℕ) :
    SameTables (on_serv_inactive s time tid) s := by
  simp only [SameTables, on_serv_inactive]
  repeat' split
  all_goals exact ⟨rfl, rfl, rfl⟩

/-- No event handler touches the platform, scenario or future-job tables. -/
theorem processEvent_tables (s : Core) (e : Event) :
    SameTables (processEvent s e) s := by
  rcases e with ⟨time, k⟩
  cases k with
  | job_arrival tid => exact on_job_arrival_tables s tid
  | serv_ready tid d u => exact on_serv_ready_tables s time tid d u
  | serv_inactive tid => exact on_serv_inactive_tables s time tid
  | _ => exact ⟨rfl, rfl, rfl⟩

theorem coreStep_tables (s : Core) (e : Event) : SameTables (coreStep s e) s := by
  rcases e with ⟨time, k⟩
  cases k with
  | virtual_time_update tid vt =>
    exact sameTables_trans (updateSrv_tables _ _ _)
      (processEvent_tables s ⟨time, .virtual_time_update tid vt⟩)
  | _ => exact processEvent_tables s ⟨time, _⟩

theorem onlyTidIn_congr {t c : ℕ} {s s' : Core}
    (hm : s'.tid_to_cluster = s.tid_to_cluster) (h : OnlyTidIn t c s) :
    OnlyTidIn t c s' :=
  fun u hu => h u (hm ▸ hu)

theorem cmapok_congr {t c : ℕ} {s s' : Core}
    (hm : s'.tid_to_cluster = s.tid_to_cluster) (h : CMapOK t c s) :
    CMapOK t c s' := by
  rw [CMapOK, hm]
  exact h

theorem relServers_congr {t c : ℕ} {s s' : Core} (hs : s'.servers = s.servers)
    (hm : s'.tid_to_cluster = s.tid_to_cluster) :
    relServers s' t c = relServers s t c := by
  rw [relServers, relServers, hs, hm]

theorem relServers_readyEnsure_other {t c t' : ℕ} (s : Core) (u : ℚ)
    (honly : OnlyTidIn t c s) (hne : t' ≠ t) :
    relServers (readyEnsure s t' u) t c = relServers s t c := by
  rw [readyEnsure]
  split
  · rfl
  · exact relServers_append_other s _ hne (map_ne_of_only honly hne)

theorem relServers_on_job_arrival_other {t c t' : ℕ} (s : Core)
    (honly : OnlyTidIn t c s) (hne : t' ≠ t) :
    relServers (on_job_arrival s t') t c = relServers s t c := by
  rw [on_job_arrival]
  repeat' split
  all_goals first
    | rfl
    | exact relServers_append_other s _ hne (map_ne_of_only honly hne)

theorem relServers_readyWatermark (s : Core) (t c tid : ℕ) (u : ℚ) :
    relServers (readyWatermark s tid u) t c = relServers s t c :=
  relServers_congr (readyWatermark_servers s tid u) (readyWatermark_tid_to_cluster s tid u)

theorem relServers_readyAttach_other {t c t' : ℕ} (s : Core) (time : ℚ)
    (honly : OnlyTidIn t c s) (hok : CMapOK t c s) (hne : t' ≠ t) :
    relServers (readyAttach s time t') t c = relServers s t c := by
  simp only [readyAttach]
  rw [updateSrv_tid_to_cluster]
  cases hm : s.tid_to_cluster t' with
  | none => exact relServers_updateSrv_other s _ (fun sv => rfl) honly hne
  | some cid =>
    dsimp only
    have hcid : cid ≠ c := fun h => hne (honly t' (by rw [hm, h]))
    refine (relServers_mark_other _ cid ?_ ?_ hcid).trans
      (relServers_updateSrv_other s _ ?_ honly hne)
    · exact hok
    · exact honly
    · exact fun sv => rfl

theorem relServers_on_serv_ready_other {t c t' : ℕ} (s : Core) (time d u : ℚ)
    (honly : OnlyTidIn t c s) (hok : CMapOK t c s) (hne : t' ≠ t) :
    relServers (on_serv_ready s time t' d u) t c = relServers s t c := by
  simp only [on_serv_ready]
  have hm0 : (readyEnsure s t' u).tid_to_cluster = s.tid_to_cluster :=
    readyEnsure_tid_to_cluster s t' u
  have honly0 : OnlyTidIn t c (readyEnsure s t' u) := onlyTidIn_congr hm0 honly
  have e0 : relServers (readyEnsure s t' u) t c = relServers s t c :=
    relServers_readyEnsure_other s u honly hne
  have e1 : relServers (updateSrv (readyEnsure s t' u) t'
      (fun sv => { sv with state := SState.ready, deadline := d, in_scheduler := true })) t c
      = relServers s t c := by
    refine (relServers_updateSrv_other _ _ ?_ honly0 hne).trans e0
    exact fun sv => rfl
  have e2 : relServers (readyWatermark (updateSrv (readyEnsure s t' u) t'
      (fun sv => { sv with state := SState.ready, deadline := d, in_scheduler := true })) t' u)
      t c = relServers s t c :=
    (relServers_readyWatermark _ t c t' u).trans e1
  have hm2 : (readyWatermark (updateSrv (readyEnsure s t' u) t'
      (fun sv => { sv with state := SState.ready, deadline := d, in_scheduler := true }))
      t' u).tid_to_cluster = s.tid_to_cluster :=
    (readyWatermark_tid_to_cluster _ t' u).trans hm0
  have honly2 : OnlyTidIn t c (readyWatermark (updateSrv (readyEnsure s t' u) t'
      (fun sv => { sv with state := SState.ready, deadline := d, in_scheduler := true })) t' u) :=
    onlyTidIn_congr hm2 honly
  have hok2 : CMapOK t c (readyWatermark (updateSrv (readyEnsure s t' u) t'
      (fun sv => { sv with state := SState.ready, deadline := d, in_scheduler := true })) t' u) :=
    cmapok_congr hm2 hok
  split
  · exact (relServers_readyAttach_other _ time honly2 hok2 hne).trans e2
  · exact e2

theorem relServers_on_serv_inactive_other {t c t' : ℕ} (s : Core) (time : ℚ)
    (honly : OnlyTidIn t c s) (hok : CMapOK t c s) (hne : t' ≠ t) :
    relServers (on_serv_inactive s time t') t c = relServers s t c := by
  simp only [on_serv_inactive]
  split
  · rfl
  · split
    · exact relServers_updateSrv_other s _ (fun sv => rfl) honly hne
    · rw [updateSrv_tid_to_cluster, updateSrv_tid_to_cluster]
      cases hm : s.tid_to_cluster t' with
      | none =>
        refine (relServers_updateSrv_other _ _ ?_ ?_ hne).trans
          (relServers_updateSrv_other s _ ?_ honly hne)
        · exact fun sv => rfl
        · exact honly
        · exact fun sv => rfl
      | some cid =>
        dsimp only
        have hcid : cid ≠ c := fun h => hne (honly t' (by rw [hm, h]))
        refine (relServers_mark_other _ cid ?_ ?_ hcid).trans
          ((relServers_updateSrv_other _ _ ?_ ?_ hne).trans
            (relServers_updateSrv_other s _ ?_ honly hne))
        · exact hok
        · exact honly
        · exact fun sv => rfl
        · exact honly
        · exact fun sv => rfl

theorem on_serv_ready_max_ever_other {t c t' : ℕ} (s : Core) (time d u : ℚ)
    (honly : OnlyTidIn t c s) (hne : t' ≠ t) :
    (on_serv_ready s time t' d u).max_ever_scheduler_util c
      = s.max_ever_scheduler_util c := by
  rw [on_serv_ready_max_ever]
  cases hm : s.tid_to_cluster t' with
  | none => rfl
  | some cid =>
    dsimp only
    cases s.clusters cid with
    | none => rfl
    | some cluster =>
      dsimp only
      rw [if_neg (fun h => hne (honly t' (by rw [hm, h])))]

/-- Handling an event confined to a foreign server on a foreign cluster
leaves the whole `(t, c)` projection of the tracker state unchanged. -/
theorem processEvent_frame {t c t' c' : ℕ} {s : Core} (honly : OnlyTidIn t c s)
    (hok : CMapOK t c s) (hne : t' ≠ t) (hcne : c' ≠ c) (e : Event)
    (hc : Confined t' c' e) : Agree t c (processEvent s e) s := by
  rcases e with ⟨time, k⟩
  obtain ⟨hcl, hti, hfj⟩ := processEvent_tables s ⟨time, k⟩
  cases k with
  | job_arrival tid =>
    obtain rfl : t' = tid := (hc.1 tid (by simp [eventTids])).symm
    exact ⟨hcl, congrFun hti t, congrFun hfj t,
      congrFun (on_job_arrival_tid_to_cluster s t') t,
      congrFun (on_job_arrival_max_ever s t') c,
      relServers_on_job_arrival_other s honly hne⟩
  | task_placed tid cid =>
    obtain rfl : t' = tid := (hc.1 tid (by simp [eventTids])).symm
    obtain rfl : c' = cid := (hc.2 cid (by simp [eventClusters])).symm
    refine ⟨hcl, congrFun hti t, congrFun hfj t, ?_, rfl,
      relServers_set_cluster_other s t' c' hne (map_ne_of_only honly hne) hcne⟩
    show (if t = t' then some c' else s.tid_to_cluster t) = s.tid_to_cluster t
    exact if_neg (fun h => hne h.symm)
  | migration_cluster tid cid =>
    obtain rfl : t' = tid := (hc.1 tid (by simp [eventTids])).symm
    obtain rfl : c' = cid := (hc.2 cid (by simp [eventClusters])).symm
    refine ⟨hcl, congrFun hti t, congrFun hfj t, ?_, rfl,
      relServers_set_cluster_other s t' c' hne (map_ne_of_only honly hne) hcne⟩
    show (if t = t' then some c' else s.tid_to_cluster t) = s.tid_to_cluster t
    exact if_neg (fun h => hne h.symm)
  | task_scheduled tid cpu =>
    exact ⟨hcl, congrFun hti t, congrFun hfj t, rfl, rfl, rfl⟩
  | task_preempted tid =>
    obtain rfl : t' = tid := (hc.1 tid (by simp [eventTids])).symm
    refine ⟨hcl, congrFun hti t, congrFun hfj t, rfl, rfl, ?_⟩
    refine relServers_updateSrv_other _ _ ?_ ?_ hne
    · exact fun sv => rfl
    · exact honly
  | serv_ready tid d u =>
    obtain rfl : t' = tid := (hc.1 tid (by simp [eventTids])).symm
    exact ⟨hcl, congrFun hti t, congrFun hfj t,
      congrFun (on_serv_ready_tid_to_cluster s time t' d u) t,
      on_serv_ready_max_ever_other s time d u honly hne,
      relServers_on_serv_ready_other s time d u honly hok hne⟩
  | serv_running tid =>
    obtain rfl : t' = tid := (hc.1 tid (by simp [eventTids])).symm
    refine ⟨hcl, congrFun hti t, congrFun hfj t, rfl, rfl, ?_⟩
    refine relServers_updateSrv_other s _ ?_ honly hne
    exact fun sv => rfl
  | serv_non_cont tid =>
    obtain rfl : t' = tid := (hc.1 tid (by simp [eventTids])).symm
    refine ⟨hcl, congrFun hti t, congrFun hfj t, rfl, rfl, ?_⟩
    refine relServers_updateSrv_other s _ ?_ honly hne
    exact fun sv => rfl
  | serv_inactive tid =>
    obtain rfl : t' = tid := (hc.1 tid (by simp [eventTids])).symm
    exact ⟨hcl, congrFun hti t, congrFun hfj t,
      congrFun (on_serv_inactive_tid_to_cluster s time t') t,
      congrFun (on_serv_inactive_max_ever s time t') c,
      relServers_on_serv_inactive_other s time honly hok hne⟩
  | serv_postpone tid d =>
    obtain rfl : t' = tid := (hc.1 tid (by simp [eventTids])).symm
    refine ⟨hcl, congrFun hti t, congrFun hfj t, rfl, rfl, ?_⟩
    refine relServers_updateSrv_other s _ ?_ honly hne
    exact fun sv => rfl
  | virtual_time_update tid vt =>
    obtain rfl : t' = tid := (hc.1 tid (by simp [eventTids])).symm
    refine ⟨hcl, congrFun hti t, congrFun hfj t, rfl, rfl, ?_⟩
    refine relServers_updateSrv_other s _ ?_ honly hne
    exact fun sv => rfl
  | frequency_update cid f =>
    exact ⟨hcl, congrFun hti t, congrFun hfj t, rfl, rfl, rfl⟩
  | proc_idled cpu =>
    exact ⟨hcl, congrFun hti t, congrFun hfj t, rfl, rfl, rfl⟩
  | _ => exact agree_refl t c s

/-- `task_placed` / `migration_cluster` confined to a foreign cluster keep
`OnlyTidIn`; every other event keeps the assignment map itself. -/
theorem processEvent_only_other {t c t' c' : ℕ} {s : Core} (honly : OnlyTidIn t c s)
    (hcne : c' ≠ c) (e : Event) (hc : Confined t' c' e) :
    OnlyTidIn t c (processEvent s e) := by
  rcases e with ⟨time, k⟩
  cases k with
  | task_placed tid cid =>
    obtain rfl : c' = cid := (hc.2 cid (by simp [eventClusters])).symm
    intro u hu
    simp only [processEvent, on_task_placed] at hu
    by_cases h : u = tid
    · rw [if_pos h] at hu
      exact absurd (Option.some.inj hu) hcne
    · rw [if_neg h] at hu
      exact honly u hu
  | migration_cluster tid cid =>
    obtain rfl : c' = cid := (hc.2 cid (by simp [eventClusters])).symm
    intro u hu
    simp only [processEvent, on_task_placed] at hu
    by_cases h : u = tid
    · rw [if_pos h] at hu
      exact absurd (Option.some.inj hu) hcne
    · rw [if_neg h] at hu
      exact honly u hu
  | _ =>
    rw [OnlyTidIn, processEvent_tid_to_cluster s _ (by intro a b; exact ⟨by simp, by simp⟩)]
    exact honly

theorem coreStep_only_other {t c t' c' : ℕ} {s : Core} (honly : OnlyTidIn t c s)
    (hcne : c' ≠ c) (e : Event) (hc : Confined t' c' e) :
    OnlyTidIn t c (coreStep s e) := by
  rcases e with ⟨time, k⟩
  cases k with
  | virtual_time_update tid vt =>
    intro u hu
    exact processEvent_only_other honly hcne ⟨time, .virtual_time_update tid vt⟩ hc u hu
  | _ => exact processEvent_only_other honly hcne ⟨time, _⟩ hc

theorem coreStep_frame {t c t' c' : ℕ} {s : Core} (honly : OnlyTidIn t c s)
    (hok : CMapOK t c s) (hne : t' ≠ t) (hcne : c' ≠ c) (e : Event)
    (hc : Confined t' c' e) : Agree t c (coreStep s e) s := by
  rcases e with ⟨time, k⟩
  cases k with
  | virtual_time_update tid vt =>
    obtain rfl : t' = tid := (hc.1 tid (by simp [eventTids])).symm
    have hp := processEvent_frame honly hok hne hcne ⟨time, .virtual_time_update t' vt⟩ hc
    have honly1 : OnlyTidIn t c (processEvent s ⟨time, .virtual_time_update t' vt⟩) :=
      processEvent_only_other honly hcne ⟨time, .virtual_time_update t' vt⟩ hc
    refine agree_trans ?_ hp
    refine ⟨rfl, rfl, rfl, rfl, rfl, ?_⟩
    refine relServers_updateSrv_other _ _ ?_ honly1 hne
    exact fun sv => rfl
  | _ => exact processEvent_frame honly hok hne hcne ⟨time, _⟩ hc

theorem coreStep_cmapok_other {t c t' c' : ℕ} {s : Core} (hok : CMapOK t c s)
    (honly : OnlyTidIn t c s) (hne : t' ≠ t) (hcne : c' ≠ c) (e : Event)
    (hc : Confined t' c' e) : CMapOK t c (coreStep s e) := by
  rw [CMapOK, (coreStep_frame honly hok hne hcne e hc).cmap]
  exact hok

/-- Folding a whole trace confined to a foreign server and cluster keeps the
`(t, c)` projection and both bookkeeping invariants. -/
theorem run_frame {t c t' c' : ℕ} (hne : t' ≠ t) (hcne : c' ≠ c) :
    ∀ (tr : List Event) (s : Core), OnlyTidIn t c s → CMapOK t c s →
      ConfinedTrace t' c' tr →
      Agree t c (runCore s tr) s ∧ OnlyTidIn t c (runCore s tr) ∧
        CMapOK t c (runCore s tr) := by
  intro tr
  induction tr with
  | nil =>
    intro s h1 h2 _
    exact ⟨agree_refl t c s, h1, h2⟩
  | cons e tr ih =>
    intro s h1 h2 hconf
    have hce : Confined t' c' e := hconf e (List.mem_cons_self _ _)
    obtain ⟨a, o, k2⟩ := ih (coreStep s e)
      (coreStep_only_other h1 hcne e hce)
      (coreStep_cmapok_other h2 h1 hne hcne e hce)
      (fun e' he' => hconf e' (List.mem_cons_of_mem _ he'))
    exact ⟨agree_trans a (coreStep_frame h1 h2 hne hcne e hce), o, k2⟩

theorem prescanStep_other {t' c' : ℕ} (fj : ℕ → List ℚ) (e : Event)
    (hc : Confined t' c' e) (u : ℕ) (hu : u ≠ t') : prescanStep fj e u = fj u := by
  rcases e with ⟨time, k⟩
  cases k with
  | job_arrival tid =>
    obtain rfl : t' = tid := (hc.1 tid (by simp [eventTids])).symm
    simp only [prescanStep]
    rw [if_neg hu]
  | _ => rfl

theorem foldl_prescan_other {t' c' : ℕ} (u : ℕ) (hu : u ≠ t') :
    ∀ (tr : List Event) (fj : ℕ → List ℚ), ConfinedTrace t' c' tr →
      tr.foldl prescanStep fj u = fj u := by
  intro tr
  induction tr with
  | nil =>
    intro fj _
    rfl
  | cons e tr ih =>
    intro fj hconf
    rw [List.foldl_cons,
      ih (prescanStep fj e) (fun e' he' => hconf e' (List.mem_cons_of_mem _ he')),
      prescanStep_other fj e (hconf e (List.mem_cons_self _ _)) u hu]

theorem prescanStep_congr_at (u : ℕ) (fj1 fj2 : ℕ → List ℚ) (h : fj1 u = fj2 u)
    (e : Event) : prescanStep fj1 e u = prescanStep fj2 e u := by
  rcases e with ⟨time, k⟩
  cases k with
  | job_arrival tid =>
    simp only [prescanStep]
    by_cases hu : u = tid
    · subst hu
      rw [if_pos rfl, if_pos rfl, h]
    · rw [if_neg hu, if_neg hu, h]
  | _ => exact h

theorem foldl_prescan_congr_at (u : ℕ) :
    ∀ (tr : List Event) (fj1 fj2 : ℕ → List ℚ), fj1 u = fj2 u →
      tr.foldl prescanStep fj1 u = tr.foldl prescanStep fj2 u := by
  intro tr
  induction tr with
  | nil =>
    intro fj1 fj2 h
    exact h
  | cons e tr ih =>
    intro fj1 fj2 h
    exact ih (prescanStep fj1 e) (prescanStep fj2 e) (prescanStep_congr_at u fj1 fj2 h e)

/-- The pre-scan of a concatenation, read at a tid the right part never
references, is the pre-scan of the left part. -/
theorem prescan_append_left {t2 c2 : ℕ} (T1 T2 : List Event) (fj : ℕ → List ℚ)
    (h2 : ConfinedTrace t2 c2 T2) (u : ℕ) (hu : u ≠ t2) :
    prescan (T1 ++ T2) fj u = prescan T1 fj u := by
  simp only [prescan, List.foldl_append]
  rw [foldl_prescan_other u hu T2 (T1.foldl prescanStep fj) h2]

/-- The pre-scan of a concatenation, read at a tid the left part never
references, is the pre-scan of the right part. -/
theorem prescan_append_right {t1 c1 : ℕ} (T1 T2 : List Event) (fj : ℕ → List ℚ)
    (h1 : ConfinedTrace t1 c1 T1) (u : ℕ) (hu : u ≠ t1) :
    prescan (T1 ++ T2) fj u = prescan T2 fj u := by
  simp only [prescan, List.foldl_append]
  rw [foldl_prescan_congr_at u T2 (T1.foldl prescanStep fj) fj
    (foldl_prescan_other u hu T1 fj h1)]

theorem init_agree_left {t1 c1 t2 c2 : ℕ} (clusters : List ClusterInfo)
    (tasks : List TaskInfo) (T1 T2 : List Event) (h2 : ConfinedTrace t2 c2 T2)
    (hne : t1 ≠ t2) :
    Agree t1 c1 (initTracker clusters tasks (T1 ++ T2)).core
      (initTracker clusters tasks T1).core :=
  ⟨rfl, rfl, prescan_append_left T1 T2 _ h2 t1 hne, rfl, rfl, rfl⟩

theorem init_agree_right {t1 c1 t2 c2 : ℕ} (clusters : List ClusterInfo)
    (tasks : List TaskInfo) (T1 T2 : List Event) (h1 : ConfinedTrace t1 c1 T1)
    (hne : t2 ≠ t1) :
    Agree t2 c2 (initTracker clusters tasks (T1 ++ T2)).core
      (initTracker clusters tasks T2).core :=
  ⟨rfl, rfl, prescan_append_right T1 T2 _ h1 t2 hne, rfl, rfl, rfl⟩

theorem runDelta_append (sched : String) :
    ∀ (T1 T2 : List Event) (s : Core),
      runDelta sched s (T1 ++ T2) =
        runDelta sched s T1 ++ runDelta sched (runCore s T1) T2 := by
  intro T1
  induction T1 with
  | nil =>
    intro T2 s
    rfl
  | cons e tr ih =>
    intro T2 s
    simp only [List.cons_append, runDelta, runCore, List.foldl_cons, List.append_assoc]
    exact congrArg (fun l => stepDelta sched s e ++ l) (ih T2 (coreStep s e))

theorem verify_trace_eq_runDelta (tr : List Event) (clusters : List ClusterInfo)
    (tasks : List TaskInfo) (sched : String) :
    verify_trace tr clusters tasks sched =
      runDelta sched (initTracker clusters tasks tr).core tr := by
  rw [verify_trace, foldl_stepEvent_eq]
  rfl

/-- C7 (amended): `verify_trace` on the concatenation of two traces yields
exactly the concatenation of the two independent violation lists, for every
policy name, provided every event of the first trace references only server
id `t1` and cluster id `c1`, every event of the second only server id `t2`
and cluster id `c2`, the server ids are distinct AND the cluster ids are
distinct; the time-range disjointness of the original claim is kept as a
hypothesis.  Distinct server ids alone do not suffice: a first-trace server
left attached to a shared cluster changes the EDF and frequency context of
the second trace's events. -/
theorem claim_C7_amended (sched : String) (clusters : List ClusterInfo)
    (tasks : List TaskInfo) (T1 T2 : List Event) (t1 c1 t2 c2 : ℕ)
    (h1 : ConfinedTrace t1 c1 T1) (h2 : ConfinedTrace t2 c2 T2)
    (htime : ∀ e1 ∈ T1, ∀ e2 ∈ T2, e1.time < e2.time)
    (hnet : t1 ≠ t2) (hnec : c1 ≠ c2) :
    verify_trace (T1 ++ T2) clusters tasks sched =
      verify_trace T1 clusters tasks sched ++ verify_trace T2 clusters tasks sched := by
  rw [verify_trace_eq_runDelta, verify_trace_eq_runDelta, verify_trace_eq_runDelta,
    runDelta_append]
  have hA1 : Agree t1 c1 (initTracker clusters tasks (T1 ++ T2)).core
      (initTracker clusters tasks T1).core :=
    init_agree_left clusters tasks T1 T2 h2 hnet
  have hK1 : CMapOK t1 c1 (initTracker clusters tasks (T1 ++ T2)).core := Or.inl rfl
  have part1 := (runDelta_eq_of_agree sched T1
      (initTracker clusters tasks (T1 ++ T2)).core
      (initTracker clusters tasks T1).core hA1 hK1 h1).1
  have hOnly : OnlyTidIn t2 c2 (initTracker clusters tasks (T1 ++ T2)).core :=
    fun u hu => Option.noConfusion hu
  have hK2 : CMapOK t2 c2 (initTracker clusters tasks (T1 ++ T2)).core := Or.inl rfl
  obtain ⟨hA2, hO2, hK2f⟩ := run_frame hnet hnec T1
    (initTracker clusters tasks (T1 ++ T2)).core hOnly hK2 h1
  have hA2' : Agree t2 c2 (runCore (initTracker clusters tasks (T1 ++ T2)).core T1)
      (initTracker clusters tasks T2).core :=
    agree_trans hA2 (init_agree_right clusters tasks T1 T2 h1 hnet.symm)
  have part2 := (runDelta_eq_of_agree sched T2
      (runCore (initTracker clusters tasks (T1 ++ T2)).core T1)
      (initTracker clusters tasks T2).core hA2' hK2f h2).1
  rw [part1, part2]

/-- C7 amended witness: two one-event traces confined to servers 1 and 2 on
clusters 0 and 1, with disjoint time ranges, under the pa policy. -/
theorem claim_C7_amended_witness :
    verify_trace ([⟨0, .task_placed 1 0⟩] ++ [⟨10, .task_placed 2 1⟩])
        [mkClusterInfo 0 1 [1000] 0 1 1] [] "pa" =
      verify_trace [⟨0, .task_placed 1 0⟩] [mkClusterInfo 0 1 [1000] 0 1 1] [] "pa" ++
        verify_trace [⟨10, .task_placed 2 1⟩] [mkClusterInfo 0 1 [1000] 0 1 1] [] "pa" :=
  claim_C7_amended "pa" [mkClusterInfo 0 1 [1000] 0 1 1] [] [⟨0, .task_placed 1 0⟩]
    [⟨10, .task_placed 2 1⟩] 1 0 2 1
    (by intro e he
        rcases List.mem_singleton.mp he with rfl
        exact ⟨fun u hu => List.mem_singleton.mp hu, fun d hd => List.mem_singleton.mp hd⟩)
    (by intro e he
        rcases List.mem_singleton.mp he with rfl
        exact ⟨fun u hu => List.mem_singleton.mp hu, fun d hd => List.mem_singleton.mp hd⟩)
    (by intro e1 he1 e2 he2
        rcases List.mem_singleton.mp he1 with rfl
        rcases List.mem_singleton.mp he2 with rfl
        norm_num)
    (by decide) (by decide)

/-- C9 witness: a server with utilization 0 that would otherwise pass every
earlier guard of the VT-rate check (Ready, continuously running, stable
bandwidth, elapsed time 5), exercising the nonpositive-scaled-utilization
guard. -/
theorem claim_C9_vt_rate_guards_witness :
    check_vt_rate
        (coreFx (mkClusterInfo 0 1 [1000] 0 1 1)
          [{ tid := 1, utilization := 0, period := 10, state := SState.ready,
             in_scheduler := true, cur_vt_update_time := some 0,
             cur_vt_update_value := some 0, ran_continuously := true }]
          (fun u => if u = 1 then some 0 else none) (fun _ => []) (fun _ => 0))
        5 1 10 = [] :=
  claim_C9_vt_rate_guards.1
    (coreFx (mkClusterInfo 0 1 [1000] 0 1 1)
      [{ tid := 1, utilization := 0, period := 10, state := SState.ready,
         in_scheduler := true, cur_vt_update_time := some 0,
         cur_vt_update_value := some 0, ran_continuously := true }]
      (fun u => if u = 1 then some 0 else none) (fun _ => []) (fun _ => 0))
    5 1 10 (by with_unfolding_all decide)

end VerifyGrub
